import Mathlib

/-!
Verification development for the zen-fs cloud adapter package.

The TypeScript sources are shallowly embedded below:
- `src/cloudfs.ts` (generic `CloudFS` adapter: content cache, composite
  operations, error-conversion discipline);
- `src/s3.ts` (`S3FileSystem` primitives, `checkStatus`, `_stat`
  metadata consistency checks);
- `src/dropbox.ts` (`convertError` over the nested tagged error unions,
  `readdir` cursor pagination);
- `src/gdrive.ts` (`GoogleDriveFS`: identifier cache `pathCache`,
  `getFileId` resolution walk, `createFile`, `mkdir`, `stat`, `readdir`).

JavaScript strings are modelled as `List Char`; byte buffers as
`List Nat`; `Map` objects as association lists with unique keys;
asynchronous methods as pure functions returning `Except`/`Option`
together with the updated state; `performance.now() / 1000` timestamps
as an explicit `now : Int` parameter threaded through the calls.
-/

deriving instance DecidableEq for Except

/-- The normalized error taxonomy (spec section 4.1).  Constructors are
named after the taxonomy names; the POSIX code of the source is noted
at each use site (`ENOENT` is `notFound`, `EACCES` is `accessDenied`,
`EINVAL` is `invalidArgument`, `EEXIST` is `alreadyExists`, `EISDIR` is
`isADirectory`, `ENOTDIR` is `notADirectory`, `EPERM` is
`permissionDenied`, `ENOSPC` is `outOfSpace`, `EAGAIN` is `tryAgain`,
`EBUSY` is `busy`, `EBADMSG` is `badMessage`, `ENOMSG` is
`unsupportedMessage`, `EMSGSIZE` is `messageTooLarge`, `EBADF` is
`badFileDescriptor`, `EIO` is `ioError`, `ENOTEMPTY` is `notEmpty`,
`ENODATA` is `noData`, `EREMOTEIO` is `remoteIoError`, `ENOTSUP` is
`notSupported`). -/
inductive Errno where
  | notFound
  | accessDenied
  | invalidArgument
  | alreadyExists
  | isADirectory
  | notADirectory
  | permissionDenied
  | outOfSpace
  | tryAgain
  | busy
  | badMessage
  | unsupportedMessage
  | messageTooLarge
  | badFileDescriptor
  | ioError
  | notEmpty
  | noData
  | remoteIoError
  | notSupported
  deriving DecidableEq

/-- A normalized error: one taxonomy code plus an optional message
(kerium `Exception` / zenfs `ErrnoError`). -/
structure Errex where
  errno : Errno
  msg : Option String
  deriving DecidableEq

/-- Models `S_IFDIR` from the vfs constants. -/
def S_IFDIR : Nat := 0x4000

/-- Models `S_IFREG` from the vfs constants. -/
def S_IFREG : Nat := 0x8000

/-- Models `S_IFLNK` from the vfs constants. -/
def S_IFLNK : Nat := 0xA000

/-! ## Association-list maps

`Map` objects of the source (`pathCache`, `statsCache`, `dirCache`, the
content cache) are modelled as association lists with unique keys:
`insertA` replaces any previous binding, `deleteA` removes the binding,
lookup is `List.lookup`. -/

/-- Delete the binding for `k` (JS `Map.prototype.delete`). -/
def deleteA [BEq κ] (l : List (κ × α)) (k : κ) : List (κ × α) :=
  l.filter (fun e => !(e.1 == k))

/-- Insert or replace the binding for `k` (JS `Map.prototype.set`). -/
def insertA [BEq κ] (l : List (κ × α)) (k : κ) (v : α) : List (κ × α) :=
  (k, v) :: deleteA l k

/-- The key set of a map. -/
def keysOf (l : List (κ × α)) : List κ :=
  l.map Prod.fst

/-! ## JavaScript strings and path helpers

`Str` is a JavaScript string as a character sequence.  `splitChar`
is `String.prototype.split` with a single-character separator. -/

abbrev Str := List Char

/-- Conversion from Lean string literals. -/
def toStr (s : String) : Str := s.data

/-- JS `s.split(sep)` for a one-character separator: always returns a
nonempty list of separator-free chunks. -/
def splitChar (sep : Char) : Str → List Str
  | [] => [[]]
  | a :: rest =>
    if a = sep then [] :: splitChar sep rest
    else
      match splitChar sep rest with
      | [] => [[a]]
      | h :: t => (a :: h) :: t

/-- JS `parts.join(sep)` for a one-character separator. -/
def joinChar (sep : Char) : List Str → Str
  | [] => []
  | [x] => x
  | x :: y :: rest => x ++ sep :: joinChar sep (y :: rest)

/-- The nonempty segments of a path: `path.split('/').filter(Boolean)`. -/
def segsOf (p : Str) : List Str :=
  (splitChar '/' p).filter (· ≠ [])

/-- The canonical absolute path of a segment list: `"/"` for `[]`,
otherwise a leading slash followed by the slash-joined segments. -/
def mkPath (l : List Str) : Str :=
  '/' :: joinChar '/' l

/-! ## The content cache of `CloudFS` (`src/cloudfs.ts`)

State of one `CloudFS` instance as far as `read`, `write`,
`getValidContents` and the backing store are concerned.  The remote
store is the map a backend read primitive `_read` consults and the
write primitive `_write` replaces wholesale; `readCount` counts the
`_read` invocations performed so far. -/

/-- A content cache entry (`interface CacheEntry`): capture time in
seconds and the cached bytes. -/
structure CacheEntry where
  time : Int
  data : List Nat
  deriving DecidableEq

/-- State threaded through `CloudFS.read` / `CloudFS.write`. -/
structure CFState where
  remote : List (String × List Nat)
  cache : List (String × CacheEntry)
  readCount : Nat
  deriving DecidableEq

/-- A JavaScript value of type `number | boolean`, as produced by the
expression `cache.time ?? 0 >= performance.now() / 1000 - this.cacheTTL`. -/
inductive JsVal where
  | num (n : Int)
  | boolean (b : Bool)
  deriving DecidableEq

/-- JS `??` (nullish coalescing) on a possibly-absent number against a
boolean right operand. -/
def jsCoalesce (a : Option Int) (b : Bool) : JsVal :=
  match a with
  | some n => .num n
  | none => .boolean b

/-- JS truthiness of a `number | boolean` value. -/
def JsVal.truthy : JsVal → Bool
  | .num n => decide (n ≠ 0)
  | .boolean b => b

/-- The freshness condition of `getValidContents`, exactly as written
in the source: `cache.time ?? 0 >= performance.now() / 1000 - this.cacheTTL`.
JS parses this as `cache.time ?? (0 >= now - ttl)` because `??` binds
lower than `>=`; `cache.time` is a number and never nullish. -/
def cacheFresh (time : Int) (now : Int) (ttl : Int) : Bool :=
  (jsCoalesce (some time) (decide ((0 : Int) ≥ now - ttl))).truthy

/-- The fetch-and-store arm of `getValidContents`: call `_read`, store
the result with the current time, return it.  `_read` is modelled as a
lookup in the remote store (`none` when the backend rejects). -/
def cfFetch (st : CFState) (path : String) (now : Int) :
    Option (List Nat × CFState) :=
  match List.lookup path st.remote with
  | none => none
  | some d =>
      some (d, { st with
                  cache := insertA st.cache path { time := now, data := d },
                  readCount := st.readCount + 1 })

/-- Models `CloudFS.getValidContents(path)`: return cached bytes when the
entry is present and the freshness condition holds, otherwise fetch. -/
def getValidContents (st : CFState) (path : String) (now ttl : Int) :
    Option (List Nat × CFState) :=
  match List.lookup path st.cache with
  | some c =>
      if cacheFresh c.time now ttl then some (c.data, st)
      else cfFetch st path now
  | none => cfFetch st path now

/-- Modelled from the spec: `extendBuffer` is the external byte helper
of §4.2 — grow the buffer to `n` bytes when shorter, gap bytes
zero-filled, otherwise return it unchanged. -/
def extendBuffer (data : List Nat) (n : Nat) : List Nat :=
  if n ≤ data.length then data
  else data ++ List.replicate (n - data.length) 0

/-- JS `buffer.set(src, offset)`: overlay `src` onto `buffer` starting
at `offset` (the caller guarantees it fits). -/
def bufferSet (buffer src : List Nat) (offset : Nat) : List Nat :=
  buffer.take offset ++ src ++ buffer.drop (offset + src.length)

/-- JS `data.subarray(start, stop)`. -/
def subarray (data : List Nat) (start stop : Nat) : List Nat :=
  (data.drop start).take (stop - start)

/-- Models `CloudFS.write(path, data, offset)`: read-modify-write through
`getValidContents`, then persist the whole buffer via `_write`.  The
content cache is not updated after the `_write`. -/
def cfWrite (st : CFState) (path : String) (data : List Nat)
    (offset : Nat) (now ttl : Int) : Option CFState :=
  match getValidContents st path now ttl with
  | none => none
  | some (cur, st1) =>
      let buffer := bufferSet (extendBuffer cur (offset + data.length)) data offset
      some { st1 with remote := insertA st1.remote path buffer }

/-- Models `CloudFS.read(path, buffer, offset, end)`: fetch via
`getValidContents` and overlay `data.subarray(offset, end)` onto the
caller's buffer (modelled as `bufLen` zero bytes). -/
def cfRead (st : CFState) (path : String) (bufLen offset stop : Nat)
    (now ttl : Int) : Option (List Nat × CFState) :=
  match getValidContents st path now ttl with
  | none => none
  | some (d, st1) =>
      some (bufferSet (List.replicate bufLen 0) (subarray d offset stop) 0, st1)

/-- Models `CloudFS.createFile` through a backend `_create`: every backend
creates the path as an empty remote object (S3 `putObject` with an
empty body, Dropbox `filesUpload` of an empty blob). -/
def cfCreateFile (st : CFState) (path : String) : CFState :=
  { st with remote := insertA st.remote path [] }

/-- The empty adapter state: nothing cached, nothing read. -/
def cfInit : CFState :=
  { remote := [], cache := [], readCount := 0 }

/-! ## The S3 backend (`src/s3.ts`)

`headObject` / `putObject` / `deleteObject` / `copyObject` /
`getObject` responses are modelled by the fields the adapter consults:
the user metadata (the declared inode fields), `ContentLength`,
`LastModified` (as milliseconds via `getTime()`), the
`$metadata.httpStatusCode`, and the body bytes. -/

/-- The inode fields declared in the S3 user metadata, after
`parseStats` has coerced each to a number (the claims concern objects
whose metadata declares `mode`, `size` and `mtimeMs`). -/
structure S3Decl where
  mode : Nat
  size : Int
  mtimeMs : Int
  deriving DecidableEq

/-- JS loose inequality `a != b` between a number and a
possibly-undefined number: a number is never loosely equal to
`undefined`. -/
def looseNeq (a : Int) (b : Option Int) : Bool :=
  match b with
  | some v => decide (a ≠ v)
  | none => true

/-- Models `S3FileSystem._stat`: reject a missing metadata map with `ENODATA`;
log a warning (returned as the `Bool`) when the declared size differs
from `ContentLength`; throw `EBADMSG` when the declared `mtimeMs`
differs from `LastModified?.getTime()`; otherwise return the parsed
inode. -/
def s3stat (metadata : Option S3Decl) (contentLength lastModifiedMs : Option Int) :
    Except Errno (S3Decl × Bool) :=
  match metadata with
  | none => .error .noData
  | some inode =>
      let warn := looseNeq inode.size contentLength
      if looseNeq inode.mtimeMs lastModifiedMs then .error .badMessage
      else .ok (inode, warn)

/-- JS loose equality `code == metadata.httpStatusCode` between a
number and a possibly-undefined number. -/
def looseEq (a : Int) (b : Option Int) : Bool :=
  match b with
  | some v => decide (a = v)
  | none => false

/-- Models `checkStatus(metadata, ...expected)`, exactly as written: when some
expected code equals the status it returns early; the source has no
statement after that early return, so the fall-through path also
returns normally. -/
def checkStatus (httpStatusCode : Option Int) (expected : List Int) :
    Except Errex Unit :=
  if expected.any (fun code => looseEq code httpStatusCode) then .ok ()
  else .ok ()

/-- Models `S3FileSystem._delete`: `EPERM` on the root, otherwise
`deleteObject` followed by `checkStatus($md, 204)`. -/
def s3Delete (path : String) (deleteStatus : Option Int) : Except Errex Unit :=
  if path == "/" then .error ⟨.permissionDenied, none⟩
  else do
    checkStatus deleteStatus [204]
    pure ()

/-- Models `S3FileSystem._create`: `EEXIST` on the root, otherwise `putObject`
of an empty body followed by `checkStatus($md, 200, 201)`. -/
def s3Create (path : String) (putStatus : Option Int) : Except Errex Unit :=
  if path == "/" then .error ⟨.alreadyExists, none⟩
  else do
    checkStatus putStatus [200, 201]
    pure ()

/-- Models `S3FileSystem._read`: `getObject`, `checkStatus($md, 200)`, then
`ENODATA` when no body bytes could be produced. -/
def s3ReadPrim (getStatus : Option Int) (body : Option (List Nat)) :
    Except Errex (List Nat) := do
  checkStatus getStatus [200]
  match body with
  | none => .error ⟨.noData, none⟩
  | some d => pure d

/-- Models `S3FileSystem._touch`: `_read` then `putObject` of the same bytes
with the new metadata, followed by `checkStatus($md, 200)`. -/
def s3Touch (getStatus : Option Int) (body : Option (List Nat))
    (putStatus : Option Int) : Except Errex Unit := do
  let _ ← s3ReadPrim getStatus body
  checkStatus putStatus [200]
  pure ()

/-- Models `CloudFS.stat` as instantiated by the S3 backend: the root
short-circuits to a synthetic directory inode, other paths go through
`_stat` (the message-free normalization of its errors is elided — the
code is the `Errno`). -/
def s3CloudStat (path : String) (metadata : Option S3Decl)
    (contentLength lastModifiedMs : Option Int) : Except Errno S3Decl :=
  if path == "/" then .ok ⟨S_IFDIR ||| 0o755, 0, 0⟩
  else (s3stat metadata contentLength lastModifiedMs).map Prod.fst

/-- Models `S3FileSystem._write`: `stat(path)` for the current metadata, then
`putObject` of the buffer, followed by `checkStatus($md, 200)`. -/
def s3Write (path : String) (metadata : Option S3Decl)
    (contentLength lastModifiedMs : Option Int) (putStatus : Option Int) :
    Except Errex Unit := do
  match s3CloudStat path metadata contentLength lastModifiedMs with
  | .error e => .error ⟨e, none⟩
  | .ok _ => do
      checkStatus putStatus [200]
      pure ()

/-- Models `CloudFS.unlink` as instantiated by the S3 backend: `stat`, then
`EISDIR` for directories, then `_delete`. -/
def s3Unlink (path : String) (metadata : Option S3Decl)
    (contentLength lastModifiedMs : Option Int) (deleteStatus : Option Int) :
    Except Errex Unit := do
  match s3CloudStat path metadata contentLength lastModifiedMs with
  | .error e => .error ⟨e, none⟩
  | .ok inode =>
      if inode.mode &&& S_IFDIR ≠ 0 then .error ⟨.isADirectory, none⟩
      else s3Delete path deleteStatus

/-- Models `S3FileSystem._move`: `copyObject`, `checkStatus($md, 200)`, then
`this.unlink(from)`. -/
def s3Move (from_ : String) (copyStatus : Option Int)
    (metadata : Option S3Decl) (contentLength lastModifiedMs : Option Int)
    (deleteStatus : Option Int) : Except Errex Unit := do
  checkStatus copyStatus [200]
  s3Unlink from_ metadata contentLength lastModifiedMs deleteStatus

/-! ## The Dropbox backend (`src/dropbox.ts`)

Pagination (`DropboxFS.readdir`): -/

/-- One `ListFolderResult` page: the `path_display` of each entry
(possibly `undefined`), the `has_more` flag and the continuation
`cursor`. -/
structure Page where
  entries : List (Option String)
  has_more : Bool
  cursor : String
  deriving DecidableEq

/-- The `names` helper of `readdir`:
`entries.map(e => e.path_display).filter(p => !!p)` — drops
`undefined` and empty strings. -/
def pageNames (p : Page) : List String :=
  p.entries.filterMap (fun e =>
    match e with
    | some s => if s == "" then none else some s
    | none => none)

/-- The `while (result.has_more && i < 100)` loop of `readdir`,
recursing on `remaining = 100 - i` (the loop counter `i` only ever
increments by one).  `remaining + 1` is reached exactly when `i < 100`;
`remaining = 0` inside the loop body is `++i >= 100`, the
`Infinite loop prevented` throw.  Returns the collected names and the
number of `filesListFolderContinue` calls made. -/
def listLoop (cont : String → Page) :
    Nat → Page → List String → Except Errex (List String) × Nat
  | 0, _, acc => (.ok acc, 0)
  | remaining + 1, result, acc =>
    if result.has_more then
      if remaining == 0 then
        (.error ⟨.ioError, some "Infinite loop prevented"⟩, 0)
      else
        let r := cont result.cursor
        let p := listLoop cont remaining r (acc ++ pageNames r)
        (p.1, p.2 + 1)
    else (.ok acc, 0)

/-- Models `DropboxFS.readdir`: the initial `filesListFolder` call, then the
continuation loop starting at `i = 0`.  Returns the names and the total
number of remote list calls (initial call included). -/
def dropboxReaddir (first : Page) (cont : String → Page) :
    Except Errex (List String) × Nat :=
  let p := listLoop cont 100 first (pageNames first)
  (p.1, p.2 + 1)

/-! ### Error conversion (`convertError` in `src/dropbox.ts`)

The native error is the nested discriminated union of the Dropbox SDK
types: a `DropboxResponseError` wrapper (recognized by its `status`
field), a `DB.Error` envelope (no `.tag`, has `error` /
`user_message` / `error_summary`), and the recursive tagged unions.
The recursive tags (`path`, `path_lookup`, `path_write`, `from_lookup`,
`from_write`, `to`) carry their nested error in the same-named field;
every other tag is a leaf.  For the `path` tag the source reads
`'path' in error ? error.path : error.reason`; the SDK types guarantee
one of the two fields, so the constructor carries the nested error
directly. -/

/-- A `ConvertableError` value: the recursive tagged union. -/
inductive DBTagged where
  | pathTag (inner : DBTagged)
  | pathLookup (inner : DBTagged)
  | pathWrite (inner : DBTagged)
  | fromLookup (inner : DBTagged)
  | fromWrite (inner : DBTagged)
  | toTag (inner : DBTagged)
  | leaf (tag : String)

/-- A `DBError` value: either a bare tagged union or a `DB.Error`
envelope around one. -/
inductive DBErrorU where
  | tagged (t : DBTagged)
  | envelope (userMessage errorSummary : Option String) (inner : DBTagged)

/-- A `DBReject` value: a `DBError` or a `DropboxResponseError` around
one. -/
inductive DBReject where
  | plain (e : DBErrorU)
  | response (status : Nat) (e : DBErrorU)

/-- JS `a || b` on strings viewed as optional values: the left operand
wins unless it is absent or empty. -/
def jsOrS (a b : Option String) : Option String :=
  match a with
  | some s => if s == "" then b else some s
  | none => b

/-- The leaf tags with a dedicated case in the `switch` of
`convertError`, together with the recursive tags (handled by
constructors of `DBTagged`); any other `.tag` reaches the `default`
arm. -/
def recognizedTags : List String :=
  ["path", "path_lookup", "path_write", "from_lookup", "from_write", "to",
   "malformed_path", "disallowed_name", "cant_move_folder_into_itself",
   "duplicated_or_nested_paths", "not_found", "not_file", "not_folder",
   "restricted_content", "conflict", "no_write_permission", "team_folder",
   "cant_copy_shared_folder", "cant_nest_shared_folder",
   "insufficient_space", "insufficient_quota", "too_many_files",
   "too_many_write_operations", "locked", "content_hash_mismatch",
   "unsupported_content_type", "payload_too_large",
   "cant_transfer_ownership", "internal_error", "cant_move_shared_folder",
   "cant_move_into_vault", "cant_move_into_family", "operation_suppressed",
   "template_error", "properties_error", "other"]

/-- The `switch (error['.tag'])` of `convertError`.  `ErrnoError.With`
call sites drop the collected message (`none`); `new ErrnoError(code,
message, ...)` call sites keep it. -/
def convertTagged : DBTagged → Option String → Errno × Option String
  | .pathTag inner, msg => convertTagged inner msg
  | .pathLookup inner, msg => convertTagged inner msg
  | .pathWrite inner, msg => convertTagged inner msg
  | .fromLookup inner, msg => convertTagged inner msg
  | .fromWrite inner, msg => convertTagged inner msg
  | .toTag inner, msg => convertTagged inner msg
  | .leaf tag, msg =>
    if tag = "malformed_path" ∨ tag = "disallowed_name" ∨
       tag = "cant_move_folder_into_itself" ∨
       tag = "duplicated_or_nested_paths" then
      (.badFileDescriptor, msg)
    else if tag = "not_found" then (.notFound, none)
    else if tag = "not_file" then (.isADirectory, none)
    else if tag = "not_folder" then (.notADirectory, none)
    else if tag = "restricted_content" ∨ tag = "conflict" ∨
            tag = "no_write_permission" ∨ tag = "team_folder" ∨
            tag = "cant_copy_shared_folder" ∨
            tag = "cant_nest_shared_folder" then
      (.permissionDenied, none)
    else if tag = "insufficient_space" ∨ tag = "insufficient_quota" ∨
            tag = "too_many_files" then
      (.outOfSpace, msg)
    else if tag = "too_many_write_operations" then (.tryAgain, none)
    else if tag = "locked" then (.busy, none)
    else if tag = "content_hash_mismatch" then (.badMessage, none)
    else if tag = "unsupported_content_type" then (.unsupportedMessage, none)
    else if tag = "payload_too_large" then (.messageTooLarge, none)
    else if tag = "cant_transfer_ownership" ∨ tag = "internal_error" ∨
            tag = "cant_move_shared_folder" ∨ tag = "cant_move_into_vault" ∨
            tag = "cant_move_into_family" ∨ tag = "operation_suppressed" ∨
            tag = "template_error" ∨ tag = "properties_error" ∨
            tag = "other" then
      (.ioError, msg)
    else (.invalidArgument, some ("Unknown error tag: " ++ tag))

/-- The `.tag`-presence dispatch of `convertError`: an envelope (no
`.tag`) recurses into its `error` field with the message
`user_message?.text || error_summary || error.error.toString()` (the
`toString()` of an SDK error object). -/
def convertDBErrorU : DBErrorU → Option String → Errno × Option String
  | .tagged t, msg => convertTagged t msg
  | .envelope um es inner, _ =>
      convertTagged inner (jsOrS um (jsOrS es (some "[object Object]")))

/-- Models `convertError(error, path, syscall, message?)`: first unwrap a
`DropboxResponseError` (`if ('status' in error) error = error.error`),
then dispatch on the `.tag` shape; the initial message is `undefined`.
Returns the normalized code and optional message. -/
def convertError : DBReject → Errno × Option String
  | .plain e => convertDBErrorU e none
  | .response _ e => convertDBErrorU e none

/-! ## Error-conversion discipline of `CloudFS` (`src/cloudfs.ts`)

A rejection reaching a `.catch(this._convertAndThrow)` is either a raw
backend error (type parameter `ε`) or an already-normalized `Errex`
(thrown by a nested composite call or by the primitive itself).
`_convertAndThrow` converts the former through `this.convertError` and
rethrows the latter unchanged.  Each composite operation below returns
its result together with the number of `convertError` invocations it
performed, so exactly-once conversion is a statement about that count. -/

/-- A rejection as seen by `_convertAndThrow`:
`error instanceof Exception` distinguishes the two cases. -/
inductive Thrown (ε : Type) where
  | raw (e : ε)
  | normalized (ex : Errex)

/-- Models `_convertAndThrow`: rethrow a normalized error unchanged, convert a
raw one. -/
def convertThrown (cv : ε → Errex) : Thrown ε → Errex
  | .raw e => cv e
  | .normalized ex => ex

/-- The number of `convertError` invocations `_convertAndThrow`
performs on a rejection. -/
def convCount : Thrown ε → Nat
  | .raw _ => 1
  | .normalized _ => 0

/-- Models `promise.catch(this._convertAndThrow)` around a primitive call:
propagate the value, or surface the converted error and count the
conversion. -/
def catchP (cv : ε → Errex) (x : Except (Thrown ε) α) :
    Except Errex α × Nat :=
  match x with
  | .ok a => (.ok a, 0)
  | .error t => (.error (convertThrown cv t), convCount t)

/-- Models `promise.catch(this._convertAndThrow)` around a nested composite
call, whose rejections are already normalized: the outer catch passes
them through `_convertAndThrow` again, which rethrows them unchanged. -/
def reCatch (cv : ε → Errex) (x : Except Errex α × Nat) :
    Except Errex α × Nat :=
  match x with
  | (.ok a, n) => (.ok a, n)
  | (.error ex, n) => (.error (convertThrown cv (.normalized ex)),
                       n + convCount (Thrown.normalized (ε := ε) ex))

/-- The outcome of each backend primitive for one composite call (each
primitive is invoked at most once per composite operation).  `touchP`
is `none` when the backend does not implement `_touch`; `readdirC` is
the public readdir of the concrete backend, which either rejects raw
(its remote calls are not caught inside) or throws an already
normalized error. -/
structure PrimResults (ε : Type) where
  moveP : Except (Thrown ε) Unit
  statP : Except (Thrown ε) Nat
  createP : Except (Thrown ε) Unit
  deleteP : Except (Thrown ε) Unit
  readPrim : Except (Thrown ε) (List Nat)
  writePrim : Except (Thrown ε) Unit
  touchP : Option (Except (Thrown ε) Unit)
  readdirC : Except (Thrown ε) (List String)

/-- Models `CloudFS.rename`: no-op when the paths coincide, else `_move`
caught once.  Inode records are reduced to their `mode` field, the only
field the composite operations consult. -/
def renameOp (cv : ε → Errex) (pr : PrimResults ε) (oldPath newPath : String) :
    Except Errex Unit × Nat :=
  if oldPath == newPath then (.ok (), 0)
  else catchP cv pr.moveP

/-- Models `CloudFS.stat`: the root short-circuits to a synthetic directory
inode; other paths delegate to `_stat` caught once. -/
def statOp (cv : ε → Errex) (pr : PrimResults ε) (path : String) :
    Except Errex Nat × Nat :=
  if path == "/" then (.ok (S_IFDIR ||| 0o755), 0)
  else catchP cv pr.statP

/-- Models `CloudFS.createFile`: `_create` of a fresh regular-file inode,
caught once; returns the inode mode. -/
def createFileOp (cv : ε → Errex) (pr : PrimResults ε) (mode : Nat) :
    Except Errex Nat × Nat :=
  match catchP cv pr.createP with
  | (.ok _, n) => (.ok (mode ||| S_IFREG), n)
  | (.error ex, n) => (.error ex, n)

/-- Models `CloudFS.unlink`: `stat` (a nested composite, so its rejection is
re-caught as an already-normalized error), then `EISDIR` for
directories, then `_delete` caught once. -/
def unlinkOp (cv : ε → Errex) (pr : PrimResults ε) (path : String) :
    Except Errex Unit × Nat :=
  match reCatch cv (statOp cv pr path) with
  | (.error ex, n) => (.error ex, n)
  | (.ok mode, n) =>
      if mode &&& S_IFDIR ≠ 0 then (.error ⟨.isADirectory, none⟩, n)
      else
        match catchP cv pr.deleteP with
        | (.ok _, m) => (.ok (), n + m)
        | (.error ex, m) => (.error ex, n + m)

/-- Models `CloudFS.rmdir`: `readdir` caught once, then `ENOTEMPTY` for a
non-empty listing, then `_delete` caught once. -/
def rmdirOp (cv : ε → Errex) (pr : PrimResults ε) : Except Errex Unit × Nat :=
  match catchP cv pr.readdirC with
  | (.error ex, n) => (.error ex, n)
  | (.ok paths, n) =>
      if paths.length > 0 then (.error ⟨.notEmpty, none⟩, n)
      else
        match catchP cv pr.deleteP with
        | (.ok _, m) => (.ok (), n + m)
        | (.error ex, m) => (.error ex, n + m)

/-- Models `CloudFS.mkdir`: `stat(dirname(path))` re-caught, `ENOTDIR` when
the parent is not a directory (`parentInode` is always truthy), then
`_create` of a directory inode caught once. -/
def mkdirOp (cv : ε → Errex) (pr : PrimResults ε) (parent : String)
    (mode : Nat) : Except Errex Nat × Nat :=
  match reCatch cv (statOp cv pr parent) with
  | (.error ex, n) => (.error ex, n)
  | (.ok parentMode, n) =>
      if parentMode &&& S_IFDIR = 0 then (.error ⟨.notADirectory, none⟩, n)
      else
        match catchP cv pr.createP with
        | (.ok _, m) => (.ok (mode ||| S_IFDIR), n + m)
        | (.error ex, m) => (.error ex, n + m)

/-- Models `CloudFS.touch`: `this._touch?.(...)` short-circuits to a no-op
when the backend supplies no `_touch`; otherwise the primitive is
caught once. -/
def touchOp (cv : ε → Errex) (pr : PrimResults ε) : Except Errex Unit × Nat :=
  match pr.touchP with
  | none => (.ok (), 0)
  | some r =>
      match catchP cv r with
      | (.ok _, n) => (.ok (), n)
      | (.error ex, n) => (.error ex, n)

/-- Models `CloudFS.getValidContents` as far as error flow is concerned: a
valid cache entry (`cached = some bytes`) is returned without touching
the backend, otherwise `_read` is caught once. -/
def gvcOp (cv : ε → Errex) (pr : PrimResults ε) (cached : Option (List Nat)) :
    Except Errex (List Nat) × Nat :=
  match cached with
  | some d => (.ok d, 0)
  | none => catchP cv pr.readPrim

/-- Models `CloudFS.read`: `getValidContents` then a pure `buffer.set`. -/
def readOp (cv : ε → Errex) (pr : PrimResults ε) (cached : Option (List Nat))
    (bufLen offset stop : Nat) : Except Errex (List Nat) × Nat :=
  match gvcOp cv pr cached with
  | (.error ex, n) => (.error ex, n)
  | (.ok d, n) =>
      (.ok (bufferSet (List.replicate bufLen 0) (subarray d offset stop) 0), n)

/-- Models `CloudFS.write`: `getValidContents`, a pure read-modify-write of
the buffer, then `_write` caught once. -/
def writeOp (cv : ε → Errex) (pr : PrimResults ε) (cached : Option (List Nat))
    (_data : List Nat) (_offset : Nat) : Except Errex Unit × Nat :=
  match gvcOp cv pr cached with
  | (.error ex, n) => (.error ex, n)
  | (.ok _, n) =>
      match catchP cv pr.writePrim with
      | (.ok _, m) => (.ok (), n + m)
      | (.error ex, m) => (.error ex, n + m)

/-! ## The Google Drive backend (`src/gdrive.ts`)

The remote store is the set of Drive file objects; the structured
child-lookup query of `getFileId`
(`name = '<segment>' and '<parent>' in parents and trashed = false`)
and the child listing of `readdir` are filters over it.  The adapter
state is the three caches. -/

/-- One remote Drive file as consulted by the adapter. -/
structure DriveFile where
  id : Str
  name : Str
  parentId : Str
  trashed : Bool
  mimeType : Str
  size : Nat
  deriving DecidableEq

/-- Cached stats, reduced to the fields the claims consult. -/
structure GStats where
  mode : Nat
  size : Nat
  deriving DecidableEq

/-- The three caches of a `GoogleDriveFS` instance. -/
structure GDState where
  pathCache : List (Str × Str)
  statsCache : List (Str × GStats)
  dirCache : List (Str × List Str)
  deriving DecidableEq

/-- The constructor seeds `pathCache` with `'/' ↦ 'root'`. -/
def gdInit : GDState :=
  { pathCache := [(toStr "/", toStr "root")], statsCache := [], dirCache := [] }

/-- Hexadecimal digit value, for percent decoding. -/
def hexVal (c : Char) : Option Nat :=
  let n := c.toNat
  if 48 ≤ n ∧ n ≤ 57 then some (n - 48)
  else if 65 ≤ n ∧ n ≤ 70 then some (n - 55)
  else if 97 ≤ n ∧ n ≤ 102 then some (n - 87)
  else none

/-- Percent decoding at the byte level (`decodeURIComponent` restricted
to single-byte sequences; a malformed escape fails, like the
exception of the original). -/
def percentDecode : Str → Option Str
  | [] => some []
  | '%' :: a :: b :: rest => do
      let h ← hexVal a
      let l ← hexVal b
      let r ← percentDecode rest
      pure (Char.ofNat (16 * h + l) :: r)
  | '%' :: _ => none
  | c :: rest => (percentDecode rest).map (c :: ·)

/-- Models `GoogleDriveFS.decodePathComponent`: `decodeURIComponent` inside a
`try`, returning the raw component when decoding fails. -/
def decodePathComponent (s : Str) : Str :=
  (percentDecode s).getD s

/-- Models `GoogleDriveFS.normalizePath`: split on `'/'`, decode each
component, rejoin. -/
def normalizePath (p : Str) : Str :=
  joinChar '/' ((splitChar '/' p).map decodePathComponent)

/-- Modelled from the spec: `dirname` is the external POSIX path helper
of `@zenfs/core` (the adapter only passes absolute paths): drop the
last segment of the canonical form. -/
def dirname (p : Str) : Str :=
  mkPath ((segsOf p).dropLast)

/-- Modelled from the spec: `join` is the external POSIX path helper of
`@zenfs/core`; for an absolute base and a dot-free, slash-free child
name it appends the child's segments and rebuilds the canonical path. -/
def joinPath (p n : Str) : Str :=
  mkPath (segsOf p ++ segsOf n)

/-- The structured child-lookup query of §6:
`name = '<seg>' and '<parentId>' in parents and trashed = false`. -/
def listQuery (files : List DriveFile) (name parentId : Str) : List DriveFile :=
  files.filter (fun f => f.name == name && f.parentId == parentId && !f.trashed)

/-- The child listing of `readdir`:
`'<parentId>' in parents and trashed = false`. -/
def listChildren (files : List DriveFile) (parentId : Str) : List DriveFile :=
  files.filter (fun f => f.parentId == parentId && !f.trashed)

/-- Models `files.get` by identifier. -/
def getById (files : List DriveFile) (id : Str) : Option DriveFile :=
  (files.filter (fun f => f.id == id)).head?

/-- The `for (const segment of segments)` walk of `getFileId`.  The
accumulators mirror the mutable locals: `parentId` and `fileId` start
as `'root'`, `cur` as the empty string; each iteration extends `cur`
with `'/' + segment`, advances through a cache hit, or queries the
remote with the *current* `parentId` (the source updates `parentId`
only after the query, so it lags one segment behind `fileId`) and
caches the answer.  Returns the resolved id, the updated state, and
the number of remote list calls. -/
def getFileIdLoop (files : List DriveFile) :
    List Str → Str → Str → Str → GDState → (Except Unit Str) × GDState × Nat
  | [], _parentId, fileId, _cur, st => (.ok fileId, st, 0)
  | seg :: rest, parentId, fileId, cur, st =>
    let cur' := cur ++ '/' :: seg
    match List.lookup cur' st.pathCache with
    | some cachedId => getFileIdLoop files rest fileId cachedId cur' st
    | none =>
      match listQuery files seg parentId with
      | [] => (.error (), st, 1)
      | f :: _ =>
          let out := getFileIdLoop files rest fileId f.id cur'
            { st with pathCache := insertA st.pathCache cur' f.id }
          (out.1, out.2.1, out.2.2 + 1)

/-- Models `GoogleDriveFS.getFileId`: normalize, try the cache for the whole
path, short-circuit the root, else walk the nonempty segments
(`path.split('/').filter(Boolean)`).  An empty query result is the
`ENOENT` throw; error contents are elided (every failure is converted
by the enclosing catch). -/
def getFileId (files : List DriveFile) (st : GDState) (path0 : Str) :
    (Except Unit Str) × GDState × Nat :=
  let path := normalizePath path0
  match List.lookup path st.pathCache with
  | some id => (.ok id, st, 0)
  | none =>
    if path = toStr "/" then (.ok (toStr "root"), st, 0)
    else getFileIdLoop files (segsOf path) (toStr "root") (toStr "root") [] st

/-- Models `mimeType?.startsWith(pre)` for a string pattern. -/
def strStarts (pat s : Str) : Bool :=
  s.take pat.length == pat

/-- Models `GoogleDriveFS.stat`: normalize; serve the stats cache; the root
short-circuits to a synthetic directory record (cached); otherwise
resolve the id, `files.get` its `mimeType`/`size`, build the stats
(Google-Docs files report size `0`), cache and return them.  Returns
the stats, the state, and the number of remote calls made. -/
def gdriveStat (files : List DriveFile) (st : GDState) (p0 : Str) :
    (Except Unit GStats) × GDState × Nat :=
  let p := normalizePath p0
  match List.lookup p st.statsCache with
  | some s => (.ok s, st, 0)
  | none =>
    if p = toStr "/" then
      let s : GStats := { mode := 0o777 ||| S_IFDIR, size := 0 }
      (.ok s, { st with statsCache := insertA st.statsCache p s }, 0)
    else
      match getFileId files st p with
      | (.error e, st', n) => (.error e, st', n)
      | (.ok fid, st', n) =>
        match getById files fid with
        | none => (.error (), st', n + 1)
        | some f =>
          let isDirectory := f.mimeType = toStr "application/vnd.google-apps.folder"
          let isGoogleDoc := strStarts (toStr "application/vnd.google-apps.") f.mimeType
          let size := if isGoogleDoc then 0 else f.size
          let s : GStats :=
            { mode := if isDirectory then S_IFDIR ||| 0o777 else S_IFREG ||| 0o666,
              size := size }
          (.ok s, { st' with statsCache := insertA st'.statsCache p s }, n + 1)

/-- Models `GoogleDriveFS.readdir`: normalize; serve the directory cache;
otherwise resolve the id, list the children, cache
`join(path, name) ↦ id` for each child, cache and return the names. -/
def gdriveReaddir (files : List DriveFile) (st : GDState) (p0 : Str) :
    (Except Unit (List Str)) × GDState × Nat :=
  let p := normalizePath p0
  match List.lookup p st.dirCache with
  | some names => (.ok names, st, 0)
  | none =>
    match getFileId files st p with
    | (.error e, st', n) => (.error e, st', n)
    | (.ok parentId, st', n) =>
      let children := listChildren files parentId
      let names := children.map (fun f => f.name)
      let st'' := children.foldl
        (fun acc f =>
          { acc with pathCache := insertA acc.pathCache (joinPath p f.name) f.id })
        st'
      (.ok names, { st'' with dirCache := insertA st''.dirCache p names }, n + 1)

/-- Models `GoogleDriveFS.clearCaches(path)`: drop the path's identifier and
stats entries and the parent directory's listing entry. -/
def clearCaches (st : GDState) (path : Str) : GDState :=
  { pathCache := deleteA st.pathCache path,
    statsCache := deleteA st.statsCache path,
    dirCache := deleteA st.dirCache (dirname path) }

/-- The `resource` of a `files.create` request: the name sent and
whether any parent identifier was attached (`GoogleDriveFS.createFile`
and `mkdir` send `name` and `mimeType` only). -/
structure CreateRequest where
  name : Str
  parents : Option (List Str)
  deriving DecidableEq

/-- The request `GoogleDriveFS.createFile` issues:
`name: path.split('/').pop()`, no parent. -/
def gdriveCreateRequest (path : Str) : CreateRequest :=
  { name := ((splitChar '/' path).getLast?).getD [], parents := none }

/-- Models `GoogleDriveFS.getNameFromPath`:
`path.split('/').filter(Boolean).pop() || ''`. -/
def getNameFromPath (path : Str) : Str :=
  ((segsOf path).getLast?).getD []

/-- The request `GoogleDriveFS.mkdir` issues:
`name: getNameFromPath(path)`, no parent. -/
def gdriveMkdirRequest (path : Str) : CreateRequest :=
  { name := getNameFromPath path, parents := none }

/-- Models `GoogleDriveFS.createFile` (state effects): cache the returned id
under the raw path, cache fresh regular-file stats, then
`clearCaches(dirname(path))`.  `newId` is the id the remote assigns. -/
def gdriveCreateFile (st : GDState) (path : Str) (newId : Str) (mode : Nat) :
    GDState × CreateRequest :=
  let st1 := { st with
    pathCache := insertA st.pathCache path newId,
    statsCache := insertA st.statsCache path { mode := mode ||| S_IFREG, size := 0 } }
  (clearCaches st1 (dirname path), gdriveCreateRequest path)

/-- Models `GoogleDriveFS.mkdir` (state effects): cache the returned id under
the raw path, cache fresh directory stats, then
`clearCaches(dirname(path))`. -/
def gdriveMkdir (st : GDState) (path : Str) (newId : Str) :
    GDState × CreateRequest :=
  let st1 := { st with
    pathCache := insertA st.pathCache path newId,
    statsCache := insertA st.statsCache path { mode := 0o777 ||| S_IFDIR, size := 0 } }
  (clearCaches st1 (dirname path), gdriveMkdirRequest path)

/-- The non-mutating public operations of `GoogleDriveFS`. -/
inductive ReadOnlyOp where
  | statQ (p : Str)
  | readdirQ (p : Str)

/-- State effect of one non-mutating operation. -/
def runOp (files : List DriveFile) (st : GDState) : ReadOnlyOp → GDState
  | .statQ p => (gdriveStat files st p).2.1
  | .readdirQ p => (gdriveReaddir files st p).2.1

/-- State effect of a sequence of non-mutating operations. -/
def runOps (files : List DriveFile) : List ReadOnlyOp → GDState → GDState
  | [], st => st
  | op :: ops, st => runOps files ops (runOp files st op)

/-- The ancestor prefixes of a cache key, spec section 3: the canonical
paths of the proper segment-list prefixes (`"/"` included). -/
def ancestorPaths (k : Str) : List Str :=
  (List.range (segsOf k).length).map (fun j => mkPath ((segsOf k).take j))

/-- The ancestor-closure invariant of the identifier cache: every key's
ancestor prefixes are keys too. -/
def ancestorClosedB (pc : List (Str × Str)) : Bool :=
  pc.all (fun e => (ancestorPaths e.1).all (fun a => (keysOf pc).contains a))

/-- A remote file name a hierarchical store can host faithfully:
nonempty, slash-free, and not a dot segment (Drive itself allows `'/'`
in names; the path helpers of the adapter cannot represent such names). -/
def saneName (n : Str) : Prop :=
  n ≠ [] ∧ '/' ∉ n ∧ n ≠ toStr "." ∧ n ≠ toStr ".."

/-- A remote store whose file names are all representable. -/
def SaneRemote (files : List DriveFile) : Prop :=
  ∀ f ∈ files, saneName f.name

/-- Segment lists produced by path splitting: nonempty and slash-free
elements. -/
def GoodSegs (L : List Str) : Prop :=
  ∀ l ∈ L, l ≠ [] ∧ '/' ∉ l

/-- The running `currentPath` of the `getFileId` walk after the given
segments have been processed (the empty string before the first). -/
def curOf (done : List Str) : Str :=
  if done = [] then [] else mkPath done

/-- The strengthened identifier-cache invariant: the root key is
present, every key is in canonical form, and every key's proper
canonical prefixes are keys. -/
def PInv (st : GDState) : Prop :=
  toStr "/" ∈ keysOf st.pathCache ∧
  ∀ k ∈ keysOf st.pathCache,
    k = mkPath (segsOf k) ∧
    ∀ j < (segsOf k).length, mkPath ((segsOf k).take j) ∈ keysOf st.pathCache

/-! ## Helper lemmas -/

theorem lookup_deleteA_ne [BEq κ] [LawfulBEq κ] (l : List (κ × α)) (k k' : κ)
    (h : k' ≠ k) : List.lookup k' (deleteA l k) = List.lookup k' l := by
  induction l with
  | nil => rfl
  | cons e t ih =>
    obtain ⟨a, b⟩ := e
    by_cases hak : a = k
    · subst hak
      have : (k' == a) = false := by simp [h]
      simp [deleteA, List.lookup, this] at ih ⊢
      simpa [deleteA] using ih
    · by_cases hka : k' = a
      · subst hka
        simp [deleteA, List.lookup, hak]
      · have h1 : (k' == a) = false := by simp [hka]
        simp [deleteA, List.lookup, hak, h1] at ih ⊢
        simpa [deleteA] using ih

theorem lookup_insertA_self [BEq κ] [LawfulBEq κ] (l : List (κ × α)) (k : κ) (v : α) :
    List.lookup k (insertA l k v) = some v := by
  simp [insertA, List.lookup]

theorem lookup_insertA_ne [BEq κ] [LawfulBEq κ] (l : List (κ × α)) (k k' : κ) (v : α)
    (h : k' ≠ k) : List.lookup k' (insertA l k v) = List.lookup k' l := by
  have h1 : (k' == k) = false := by simp [h]
  simp [insertA, List.lookup, h1, lookup_deleteA_ne l k k' h]

theorem mem_keysOf_deleteA [BEq κ] [LawfulBEq κ] (l : List (κ × α)) (k a : κ) :
    a ∈ keysOf (deleteA l k) ↔ a ≠ k ∧ a ∈ keysOf l := by
  simp only [keysOf, deleteA, List.mem_map, List.mem_filter]
  constructor
  · rintro ⟨e, ⟨he, hne⟩, rfl⟩
    refine ⟨by simpa using hne, e, he, rfl⟩
  · rintro ⟨hne, e, he, rfl⟩
    exact ⟨e, ⟨he, by simpa using hne⟩, rfl⟩

theorem mem_keysOf_insertA [BEq κ] [LawfulBEq κ] (l : List (κ × α)) (k a : κ) (v : α) :
    a ∈ keysOf (insertA l k v) ↔ a = k ∨ a ∈ keysOf l := by
  by_cases hak : a = k
  · simp [insertA, keysOf, hak]
  · simp only [insertA, keysOf, List.map_cons, List.mem_cons]
    constructor
    · rintro (rfl | h)
      · exact Or.inl rfl
      · exact Or.inr ((mem_keysOf_deleteA l k a).1 h).2
    · rintro (rfl | h)
      · exact Or.inl rfl
      · exact Or.inr ((mem_keysOf_deleteA l k a).2 ⟨hak, h⟩)

theorem keysOf_subset_insertA [BEq κ] [LawfulBEq κ] (l : List (κ × α)) (k a : κ) (v : α)
    (h : a ∈ keysOf l) : a ∈ keysOf (insertA l k v) :=
  (mem_keysOf_insertA l k a v).2 (Or.inr h)

theorem lookup_some_mem_keysOf [BEq κ] [LawfulBEq κ] (l : List (κ × α)) (k : κ) (v : α)
    (h : List.lookup k l = some v) : k ∈ keysOf l := by
  induction l with
  | nil => simp [List.lookup] at h
  | cons e t ih =>
    obtain ⟨a, b⟩ := e
    by_cases hka : k = a
    · simp [keysOf, hka]
    · have h1 : (k == a) = false := by simp [hka]
      simp only [List.lookup, h1] at h
      simp [keysOf] at ih ⊢
      exact Or.inr (ih h)

theorem splitChar_ne_nil (sep : Char) (s : Str) : splitChar sep s ≠ [] := by
  induction s with
  | nil => simp [splitChar]
  | cons a rest ih =>
    rw [splitChar]
    split
    · simp
    · split <;> simp

theorem sep_not_mem_splitChar (sep : Char) (s : Str) :
    ∀ l ∈ splitChar sep s, sep ∉ l := by
  induction s with
  | nil =>
    intro l hl
    simp [splitChar] at hl
    simp [hl]
  | cons a rest ih =>
    intro l hl
    rw [splitChar] at hl
    by_cases ha : a = sep
    · simp only [if_pos ha, List.mem_cons] at hl
      rcases hl with rfl | hl
      · simp
      · exact ih l hl
    · simp only [if_neg ha] at hl
      cases hr : splitChar sep rest with
      | nil => exact absurd hr (splitChar_ne_nil sep rest)
      | cons h t =>
        rw [hr] at hl
        simp only [List.mem_cons] at hl
        rcases hl with rfl | hl
        · intro hmem
          rcases List.mem_cons.1 hmem with rfl | hmem
          · exact ha rfl
          · exact ih h (hr ▸ List.mem_cons_self h t) hmem
        · exact ih l (hr ▸ List.mem_cons_of_mem h hl)

theorem splitChar_append (sep : Char) (x : Str) (hx : sep ∉ x) (s : Str)
    (h t : _) (hs : splitChar sep s = h :: t) :
    splitChar sep (x ++ s) = (x ++ h) :: t := by
  induction x with
  | nil => simpa using hs
  | cons a x' ih =>
    have ha : a ≠ sep := fun hh => hx (hh ▸ List.mem_cons_self a x')
    have hx' : sep ∉ x' := fun hh => hx (List.mem_cons_of_mem a hh)
    rw [List.cons_append, splitChar, if_neg ha, ih hx']
    rfl

theorem splitChar_single (sep : Char) (x : Str) (hx : sep ∉ x) :
    splitChar sep x = [x] := by
  have h0 : splitChar sep ([] : Str) = [] :: [] := by simp [splitChar]
  have := splitChar_append sep x hx [] [] [] h0
  simpa using this

theorem splitChar_joinChar (sep : Char) (L : List Str)
    (hL : ∀ l ∈ L, sep ∉ l) (hne : L ≠ []) :
    splitChar sep (joinChar sep L) = L := by
  induction L with
  | nil => exact absurd rfl hne
  | cons x rest ih =>
    cases rest with
    | nil =>
      rw [joinChar]
      exact splitChar_single sep x (hL x (List.mem_cons_self x []))
    | cons y t =>
      have hx : sep ∉ x := hL x (List.mem_cons_self x (y :: t))
      have hrest : ∀ l ∈ y :: t, sep ∉ l := fun l hl => hL l (List.mem_cons_of_mem x hl)
      have hmid : splitChar sep (sep :: joinChar sep (y :: t))
          = [] :: splitChar sep (joinChar sep (y :: t)) := by
        rw [splitChar, if_pos rfl]
      rw [joinChar]
      rw [splitChar_append sep x hx _ [] (splitChar sep (joinChar sep (y :: t)))
        (by rw [hmid]), ih hrest (by simp)]
      simp

theorem segsOf_mkPath (L : List Str) (hL : GoodSegs L) : segsOf (mkPath L) = L := by
  cases L with
  | nil => simp [segsOf, mkPath, joinChar, splitChar]
  | cons x rest =>
    have hsep : ∀ l ∈ x :: rest, '/' ∉ l := fun l hl => (hL l hl).2
    have hsplit : splitChar '/' (mkPath (x :: rest))
        = [] :: (x :: rest) := by
      rw [mkPath, splitChar, if_pos rfl, splitChar_joinChar '/' _ hsep (by simp)]
    rw [segsOf, hsplit]
    rw [List.filter]
    simp only [decide_not]
    have : ∀ l ∈ x :: rest, (decide (l = []) = false) := by
      intro l hl
      simp [(hL l hl).1]
    rw [List.filter_eq_self.2 (by intro a ha; simp [(hL a ha).1])]
    simp

theorem mem_segsOf (k : Str) : GoodSegs (segsOf k) := by
  intro l hl
  rw [segsOf] at hl
  have h1 := List.mem_filter.1 hl
  refine ⟨by simpa using h1.2, sep_not_mem_splitChar '/' k l h1.1⟩

theorem joinChar_append_single (sep : Char) (L : List Str) (x : Str) (h : L ≠ []) :
    joinChar sep (L ++ [x]) = joinChar sep L ++ sep :: x := by
  induction L with
  | nil => exact absurd rfl h
  | cons a rest ih =>
    cases rest with
    | nil => simp [joinChar]
    | cons b t =>
      have ih' := ih (by simp)
      show joinChar sep (a :: ((b :: t) ++ [x]))
          = (a ++ sep :: joinChar sep (b :: t)) ++ sep :: x
      rw [show a :: ((b :: t) ++ [x]) = a :: b :: (t ++ [x]) from by simp]
      rw [joinChar]
      rw [show b :: (t ++ [x]) = (b :: t) ++ [x] from by simp, ih']
      simp

theorem curOf_append (done : List Str) (seg : Str) :
    curOf done ++ '/' :: seg = mkPath (done ++ [seg]) := by
  by_cases h : done = []
  · subst h
    simp [curOf, mkPath, joinChar]
  · rw [curOf, if_neg h, mkPath, mkPath, joinChar_append_single '/' done seg h]
    simp

theorem getFileIdLoop_hit (files : List DriveFile) (seg : Str) (rest : List Str)
    (parentId fileId cur : Str) (st : GDState) (cid : Str)
    (h : List.lookup (cur ++ '/' :: seg) st.pathCache = some cid) :
    getFileIdLoop files (seg :: rest) parentId fileId cur st
      = getFileIdLoop files rest fileId cid (cur ++ '/' :: seg) st := by
  simp only [getFileIdLoop, h]

theorem getFileIdLoop_miss_empty (files : List DriveFile) (seg : Str) (rest : List Str)
    (parentId fileId cur : Str) (st : GDState)
    (h : List.lookup (cur ++ '/' :: seg) st.pathCache = none)
    (hq : listQuery files seg parentId = []) :
    getFileIdLoop files (seg :: rest) parentId fileId cur st = (.error (), st, 1) := by
  simp only [getFileIdLoop, h, hq]

theorem getFileIdLoop_miss_found (files : List DriveFile) (seg : Str) (rest : List Str)
    (parentId fileId cur : Str) (st : GDState) (f : DriveFile) (fs : List DriveFile)
    (h : List.lookup (cur ++ '/' :: seg) st.pathCache = none)
    (hq : listQuery files seg parentId = f :: fs) :
    getFileIdLoop files (seg :: rest) parentId fileId cur st
      = ((getFileIdLoop files rest fileId f.id (cur ++ '/' :: seg)
            { st with pathCache := insertA st.pathCache (cur ++ '/' :: seg) f.id }).1,
         (getFileIdLoop files rest fileId f.id (cur ++ '/' :: seg)
            { st with pathCache := insertA st.pathCache (cur ++ '/' :: seg) f.id }).2.1,
         (getFileIdLoop files rest fileId f.id (cur ++ '/' :: seg)
            { st with pathCache := insertA st.pathCache (cur ++ '/' :: seg) f.id }).2.2 + 1) := by
  simp only [getFileIdLoop, h, hq]

theorem getFileIdLoop_inv (files : List DriveFile) (rest : List Str) :
    ∀ (parentId fileId : Str) (done : List Str) (st : GDState),
    PInv st →
    GoodSegs (done ++ rest) →
    (∀ j, j ≤ done.length → mkPath (done.take j) ∈ keysOf st.pathCache) →
    PInv (getFileIdLoop files rest parentId fileId (curOf done) st).2.1 ∧
    (∀ a ∈ keysOf st.pathCache,
       a ∈ keysOf (getFileIdLoop files rest parentId fileId (curOf done) st).2.1.pathCache) ∧
    (∀ id, (getFileIdLoop files rest parentId fileId (curOf done) st).1 = .ok id →
       ∀ j, j ≤ (done ++ rest).length →
         mkPath ((done ++ rest).take j)
           ∈ keysOf (getFileIdLoop files rest parentId fileId (curOf done) st).2.1.pathCache) := by
  induction rest with
  | nil =>
    intro parentId fileId done st hinv hgood hpre
    refine ⟨hinv, fun a ha => ha, ?_⟩
    intro id _ j hj
    simp only [List.append_nil] at hj ⊢
    exact hpre j hj
  | cons seg rest' ih =>
    intro parentId fileId done st hinv hgood hpre
    have hgood1 : GoodSegs ((done ++ [seg]) ++ rest') := by
      intro l hl
      exact hgood l (by simpa using hl)
    have hgoodseg : GoodSegs (done ++ [seg]) := by
      intro l hl
      exact hgood1 l (List.mem_append_left _ hl)
    have hcur : curOf done ++ '/' :: seg = mkPath (done ++ [seg]) := curOf_append done seg
    have hcur' : curOf (done ++ [seg]) = mkPath (done ++ [seg]) := by
      rw [curOf, if_neg (by simp)]
    have hsegs : segsOf (mkPath (done ++ [seg])) = done ++ [seg] :=
      segsOf_mkPath _ hgoodseg
    have hassoc : (done ++ [seg]) ++ rest' = done ++ seg :: rest' := by simp
    cases hlook : List.lookup (curOf done ++ '/' :: seg) st.pathCache with
    | some cid =>
      rw [getFileIdLoop_hit files seg rest' parentId fileId (curOf done) st cid hlook]
      have hpre' : ∀ j, j ≤ (done ++ [seg]).length →
          mkPath ((done ++ [seg]).take j) ∈ keysOf st.pathCache := by
        intro j hj
        rcases Nat.lt_or_ge j (done.length + 1) with hlt | hge
        · have hj' : j ≤ done.length := Nat.lt_succ_iff.1 hlt
          rw [List.take_append_of_le_length hj']
          exact hpre j hj'
        · have hj' : j = done.length + 1 := by
            simp only [List.length_append, List.length_singleton] at hj
            omega
          subst hj'
          rw [show (done ++ [seg]).take (done.length + 1) = done ++ [seg] from by
            apply List.take_of_length_le; simp]
          rw [← hcur]
          exact lookup_some_mem_keysOf _ _ _ hlook
      have := ih fileId cid (done ++ [seg]) st hinv hgood1 hpre'
      rw [hcur', ← hcur] at this
      refine ⟨this.1, this.2.1, ?_⟩
      intro id hid j hj
      have h3 := this.2.2 id hid j (by rw [hassoc]; exact hj)
      rw [hassoc] at h3
      exact h3
    | none =>
      cases hq : listQuery files seg parentId with
      | nil =>
        rw [getFileIdLoop_miss_empty files seg rest' parentId fileId (curOf done) st hlook hq]
        refine ⟨hinv, fun a ha => ha, ?_⟩
        intro id hid
        exact absurd hid (by simp)
      | cons f fs =>
        rw [getFileIdLoop_miss_found files seg rest' parentId fileId (curOf done) st f fs hlook hq]
        have hkeyins : ∀ a, a ∈ keysOf st.pathCache →
            a ∈ keysOf (insertA st.pathCache (curOf done ++ '/' :: seg) f.id) :=
          fun a ha => keysOf_subset_insertA _ _ _ _ ha
        have hmemself : (curOf done ++ '/' :: seg)
            ∈ keysOf (insertA st.pathCache (curOf done ++ '/' :: seg) f.id) :=
          (mem_keysOf_insertA _ _ _ _).2 (Or.inl rfl)
        have hinv1 : PInv { st with
            pathCache := insertA st.pathCache (curOf done ++ '/' :: seg) f.id } := by
          refine ⟨hkeyins _ hinv.1, ?_⟩
          intro k hk
          have hseg2 : segsOf (curOf done ++ '/' :: seg) = done ++ [seg] := by
            rw [hcur]; exact hsegs
          rcases (mem_keysOf_insertA _ _ _ _).1 hk with rfl | hk'
          · constructor
            · rw [hseg2]; exact hcur
            · intro j hj
              rw [hseg2] at hj ⊢
              show mkPath ((done ++ [seg]).take j)
                ∈ keysOf (insertA st.pathCache (curOf done ++ '/' :: seg) f.id)
              have hj' : j ≤ done.length := by
                simp only [List.length_append, List.length_singleton] at hj
                omega
              rw [List.take_append_of_le_length hj']
              exact hkeyins _ (hpre j hj')
          · obtain ⟨hck, hanc⟩ := hinv.2 k hk'
            exact ⟨hck, fun j hj => hkeyins _ (hanc j hj)⟩
        have hpre1 : ∀ j, j ≤ (done ++ [seg]).length →
            mkPath ((done ++ [seg]).take j)
              ∈ keysOf (insertA st.pathCache (curOf done ++ '/' :: seg) f.id) := by
          intro j hj
          rcases Nat.lt_or_ge j (done.length + 1) with hlt | hge
          · have hj' : j ≤ done.length := Nat.lt_succ_iff.1 hlt
            rw [List.take_append_of_le_length hj']
            exact hkeyins _ (hpre j hj')
          · have hj' : j = done.length + 1 := by
              simp only [List.length_append, List.length_singleton] at hj
              omega
            subst hj'
            rw [show (done ++ [seg]).take (done.length + 1) = done ++ [seg] from by
              apply List.take_of_length_le; simp]
            rw [← hcur]
            exact hmemself
        have := ih fileId f.id (done ++ [seg])
          { st with pathCache := insertA st.pathCache (curOf done ++ '/' :: seg) f.id }
          hinv1 hgood1 hpre1
        rw [hcur'] at this
        rw [← hcur] at this
        refine ⟨this.1, ?_, ?_⟩
        · intro a ha
          exact this.2.1 a (hkeyins a ha)
        · intro id hid j hj
          have h3 := this.2.2 id hid j (by rw [hassoc]; exact hj)
          rw [hassoc] at h3
          exact h3

theorem mkPath_nil : mkPath [] = toStr "/" := by decide

theorem segsOf_root : segsOf (toStr "/") = [] := by decide

theorem segsOf_sane (n : Str) (h : saneName n) : segsOf n = [n] := by
  rw [segsOf, splitChar_single '/' n h.2.1]
  simp [h.1]

theorem getFileId_hit (files : List DriveFile) (st : GDState) (p0 id : Str)
    (h : List.lookup (normalizePath p0) st.pathCache = some id) :
    getFileId files st p0 = (.ok id, st, 0) := by
  simp only [getFileId, h]

theorem getFileId_root (files : List DriveFile) (st : GDState) (p0 : Str)
    (h : List.lookup (normalizePath p0) st.pathCache = none)
    (hr : normalizePath p0 = toStr "/") :
    getFileId files st p0 = (.ok (toStr "root"), st, 0) := by
  simp only [getFileId, h]
  rw [if_pos hr]

theorem getFileId_walk (files : List DriveFile) (st : GDState) (p0 : Str)
    (h : List.lookup (normalizePath p0) st.pathCache = none)
    (hr : normalizePath p0 ≠ toStr "/") :
    getFileId files st p0
      = getFileIdLoop files (segsOf (normalizePath p0))
          (toStr "root") (toStr "root") [] st := by
  simp only [getFileId, h]
  rw [if_neg hr]

theorem getFileId_inv (files : List DriveFile) (st : GDState) (p0 : Str)
    (hinv : PInv st) :
    PInv (getFileId files st p0).2.1 ∧
    (∀ a ∈ keysOf st.pathCache, a ∈ keysOf (getFileId files st p0).2.1.pathCache) ∧
    (∀ id, (getFileId files st p0).1 = .ok id →
       ∀ j, j ≤ (segsOf (normalizePath p0)).length →
         mkPath ((segsOf (normalizePath p0)).take j)
           ∈ keysOf (getFileId files st p0).2.1.pathCache) := by
  cases hlook : List.lookup (normalizePath p0) st.pathCache with
  | some id0 =>
    rw [getFileId_hit files st p0 id0 hlook]
    refine ⟨hinv, fun a ha => ha, ?_⟩
    intro id _ j hj
    have hmem : normalizePath p0 ∈ keysOf st.pathCache :=
      lookup_some_mem_keysOf _ _ _ hlook
    obtain ⟨hck, hanc⟩ := hinv.2 _ hmem
    rcases Nat.lt_or_ge j (segsOf (normalizePath p0)).length with hlt | hge
    · exact hanc j hlt
    · have hj' : j = (segsOf (normalizePath p0)).length := Nat.le_antisymm hj hge
      subst hj'
      rw [List.take_length]
      exact hck ▸ hmem
  | none =>
    by_cases hr : normalizePath p0 = toStr "/"
    · rw [getFileId_root files st p0 hlook hr]
      refine ⟨hinv, fun a ha => ha, ?_⟩
      intro id _ j hj
      rw [hr, segsOf_root] at hj ⊢
      have hj0 : j = 0 := by simpa using hj
      subst hj0
      rw [List.take_nil, mkPath_nil]
      exact hinv.1
    · rw [getFileId_walk files st p0 hlook hr]
      have hgood : GoodSegs ([] ++ segsOf (normalizePath p0)) := by
        intro l hl
        exact mem_segsOf (normalizePath p0) l (by simpa using hl)
      have hpre : ∀ j, j ≤ ([] : List Str).length →
          mkPath (([] : List Str).take j) ∈ keysOf st.pathCache := by
        intro j hj
        have hj0 : j = 0 := by simpa using hj
        subst hj0
        rw [List.take_nil, mkPath_nil]
        exact hinv.1
      have := getFileIdLoop_inv files (segsOf (normalizePath p0))
        (toStr "root") (toStr "root") [] st hinv hgood hpre
      rw [show curOf [] = [] from rfl] at this
      refine ⟨this.1, this.2.1, ?_⟩
      intro id hid j hj
      have h3 := this.2.2 id hid j (by simpa using hj)
      simpa using h3

theorem readdir_fold_inv (p' : Str) (children : List DriveFile) :
    ∀ (stx : GDState),
    (∀ f ∈ children, saneName f.name) →
    PInv stx →
    (∀ j, j ≤ (segsOf p').length → mkPath ((segsOf p').take j) ∈ keysOf stx.pathCache) →
    PInv (List.foldl
        (fun acc f =>
          { acc with pathCache := insertA acc.pathCache (joinPath p' f.name) f.id })
        stx children) ∧
    (∀ a ∈ keysOf stx.pathCache,
       a ∈ keysOf (List.foldl
        (fun acc f =>
          { acc with pathCache := insertA acc.pathCache (joinPath p' f.name) f.id })
        stx children).pathCache) := by
  induction children with
  | nil =>
    intro stx _ hinv _
    exact ⟨hinv, fun a ha => ha⟩
  | cons f fs ih =>
    intro stx hch hinv hpre
    have hf : saneName f.name := hch f (List.mem_cons_self f fs)
    have hgood : GoodSegs (segsOf p' ++ [f.name]) := by
      intro l hl
      rcases List.mem_append.1 hl with hl | hl
      · exact mem_segsOf p' l hl
      · rcases List.mem_singleton.1 hl with rfl
        exact ⟨hf.1, hf.2.1⟩
    have hjoin : joinPath p' f.name = mkPath (segsOf p' ++ [f.name]) := by
      rw [joinPath, segsOf_sane f.name hf]
    have hsegsK : segsOf (joinPath p' f.name) = segsOf p' ++ [f.name] := by
      rw [hjoin]
      exact segsOf_mkPath _ hgood
    have hkeyins : ∀ a, a ∈ keysOf stx.pathCache →
        a ∈ keysOf (insertA stx.pathCache (joinPath p' f.name) f.id) :=
      fun a ha => keysOf_subset_insertA _ _ _ _ ha
    have hinv1 : PInv { stx with
        pathCache := insertA stx.pathCache (joinPath p' f.name) f.id } := by
      refine ⟨hkeyins _ hinv.1, ?_⟩
      intro k hk
      rcases (mem_keysOf_insertA _ _ _ _).1 hk with rfl | hk'
      · constructor
        · rw [hsegsK]
          exact hjoin
        · intro j hj
          rw [hsegsK] at hj ⊢
          show mkPath ((segsOf p' ++ [f.name]).take j)
            ∈ keysOf (insertA stx.pathCache (joinPath p' f.name) f.id)
          have hj' : j ≤ (segsOf p').length := by
            simp only [List.length_append, List.length_singleton] at hj
            omega
          rw [List.take_append_of_le_length hj']
          exact hkeyins _ (hpre j hj')
      · obtain ⟨hck, hanc⟩ := hinv.2 k hk'
        exact ⟨hck, fun j hj => hkeyins _ (hanc j hj)⟩
    have hpre1 : ∀ j, j ≤ (segsOf p').length →
        mkPath ((segsOf p').take j)
          ∈ keysOf (insertA stx.pathCache (joinPath p' f.name) f.id) :=
      fun j hj => hkeyins _ (hpre j hj)
    have := ih { stx with pathCache := insertA stx.pathCache (joinPath p' f.name) f.id }
      (fun g hg => hch g (List.mem_cons_of_mem f hg)) hinv1 hpre1
    rw [List.foldl_cons]
    exact ⟨this.1, fun a ha => this.2 a (hkeyins a ha)⟩

theorem gdriveStat_inv (files : List DriveFile) (st : GDState) (p0 : Str)
    (hinv : PInv st) :
    PInv (gdriveStat files st p0).2.1 ∧
    (∀ a ∈ keysOf st.pathCache, a ∈ keysOf (gdriveStat files st p0).2.1.pathCache) := by
  cases hsc : List.lookup (normalizePath p0) st.statsCache with
  | some s =>
    simp only [gdriveStat, hsc]
    exact ⟨hinv, fun a ha => ha⟩
  | none =>
    by_cases hr : normalizePath p0 = toStr "/"
    · simp only [gdriveStat, hsc, if_pos hr]
      exact ⟨hinv, fun a ha => ha⟩
    · simp only [gdriveStat, hsc, if_neg hr]
      have hg := getFileId_inv files st (normalizePath p0) hinv
      rcases hgf : getFileId files st (normalizePath p0) with ⟨r, st', n⟩
      rw [hgf] at hg
      cases r with
      | error e =>
        simp only
        exact ⟨hg.1, hg.2.1⟩
      | ok fid =>
        simp only
        cases hgb : getById files fid with
        | none => exact ⟨hg.1, hg.2.1⟩
        | some f => exact ⟨hg.1, hg.2.1⟩

theorem gdriveReaddir_inv (files : List DriveFile) (st : GDState) (p0 : Str)
    (hsane : SaneRemote files)
    (hstable : normalizePath (normalizePath p0) = normalizePath p0)
    (hinv : PInv st) :
    PInv (gdriveReaddir files st p0).2.1 ∧
    (∀ a ∈ keysOf st.pathCache, a ∈ keysOf (gdriveReaddir files st p0).2.1.pathCache) := by
  cases hdc : List.lookup (normalizePath p0) st.dirCache with
  | some names =>
    simp only [gdriveReaddir, hdc]
    exact ⟨hinv, fun a ha => ha⟩
  | none =>
    simp only [gdriveReaddir, hdc]
    have hg := getFileId_inv files st (normalizePath p0) hinv
    rcases hgf : getFileId files st (normalizePath p0) with ⟨r, st', n⟩
    rw [hgf] at hg
    cases r with
    | error e =>
      simp only
      exact ⟨hg.1, hg.2.1⟩
    | ok pid =>
      simp only
      have hfam : ∀ j, j ≤ (segsOf (normalizePath p0)).length →
          mkPath ((segsOf (normalizePath p0)).take j) ∈ keysOf st'.pathCache := by
        intro j hj
        have := hg.2.2 pid rfl j (by rw [hstable]; exact hj)
        rw [hstable] at this
        exact this
      have hch : ∀ f ∈ listChildren files pid, saneName f.name := by
        intro f hf
        exact hsane f (List.mem_of_mem_filter hf)
      have hfold := readdir_fold_inv (normalizePath p0) (listChildren files pid)
        st' hch hg.1 hfam
      refine ⟨hfold.1, ?_⟩
      intro a ha
      exact hfold.2 a (hg.2.1 a ha)

theorem runOp_inv (files : List DriveFile) (st : GDState) (op : ReadOnlyOp)
    (hsane : SaneRemote files)
    (hstable : ∀ p, op = .readdirQ p → normalizePath (normalizePath p) = normalizePath p)
    (hinv : PInv st) : PInv (runOp files st op) := by
  cases op with
  | statQ p => exact (gdriveStat_inv files st p hinv).1
  | readdirQ p =>
    exact (gdriveReaddir_inv files st p hsane (hstable p rfl) hinv).1

theorem runOps_inv (files : List DriveFile) (ops : List ReadOnlyOp) :
    ∀ (st : GDState),
    SaneRemote files →
    (∀ p, ReadOnlyOp.readdirQ p ∈ ops →
       normalizePath (normalizePath p) = normalizePath p) →
    PInv st → PInv (runOps files ops st) := by
  induction ops with
  | nil =>
    intro st _ _ hinv
    exact hinv
  | cons op rest ih =>
    intro st hsane hstable hinv
    rw [runOps]
    refine ih (runOp files st op) hsane
      (fun p hp => hstable p (List.mem_cons_of_mem op hp)) ?_
    exact runOp_inv files st op hsane
      (fun p hop => hstable p (hop ▸ List.mem_cons_self op rest)) hinv

theorem PInv_gdInit : PInv gdInit := by
  constructor
  · simp [gdInit, keysOf]
  · intro k hk
    simp only [gdInit, keysOf, List.map_cons, List.map_nil, List.mem_singleton] at hk
    subst hk
    refine ⟨by decide, ?_⟩
    intro j hj
    rw [segsOf_root] at hj
    simp at hj

theorem ancestorClosedB_of_PInv (st : GDState) (hinv : PInv st) :
    ancestorClosedB st.pathCache = true := by
  rw [ancestorClosedB, List.all_eq_true]
  intro e he
  rw [List.all_eq_true]
  intro a ha
  rw [ancestorPaths] at ha
  simp only [List.mem_map, List.mem_range] at ha
  obtain ⟨j, hj, rfl⟩ := ha
  have hk : e.1 ∈ keysOf st.pathCache := List.mem_map_of_mem Prod.fst he
  have := (hinv.2 e.1 hk).2 j hj
  simpa using this

theorem bufferSet_extend_empty (d : List Nat) :
    bufferSet (extendBuffer [] (0 + d.length)) d 0 = d := by
  cases d with
  | nil => rfl
  | cons x xs =>
    rw [extendBuffer, if_neg (by simp)]
    simp [bufferSet, List.drop_replicate]

theorem bufferSet_replicate_full (d : List Nat) :
    bufferSet (List.replicate d.length 0) d 0 = d := by
  simp [bufferSet, List.drop_replicate]

/-! ## Claim theorems -/

/-- C1 (counterexample): a file freshly created at `"/f"`, written with
the three bytes `[1, 2, 3]` at offset `0` at time `5`, and read back
over the range `[0, 3)` at time `6`, yields `[0, 0, 0]` — the pre-write
cached contents — and not the written bytes, because `write` populated
the content cache with the pre-write contents during its
read-modify-write and never updated it after `_write`. -/
theorem c1_counterexample :
    ((cfWrite (cfCreateFile cfInit "/f") "/f" [1, 2, 3] 0 5 3600).bind
        (fun st1 => (cfRead st1 "/f" 3 0 3 6 3600).map Prod.fst)
      = some [0, 0, 0]) ∧ ([0, 0, 0] : List Nat) ≠ [1, 2, 3] := by
  constructor
  · decide
  · decide

/-- C1 (amended): for every path `p` freshly created and every byte
sequence `d`, `write(p, d, 0)` at a nonzero time persists exactly `d`
to the backend, but the subsequent `read(p, buffer, 0, |d|)` is served
from the cache entry captured before the write and returns `|d|` zero
bytes rather than `d`; a read performed once the cache entry for `p`
is gone returns exactly `d`. -/
theorem c1_amended_write_read (p : String) (d : List Nat) (t1 t2 ttl : Int)
    (h : t1 ≠ 0) :
    cfWrite (cfCreateFile cfInit p) p d 0 t1 ttl
        = some { remote := [(p, d)],
                 cache := [(p, { time := t1, data := [] })], readCount := 1 } ∧
    cfRead { remote := [(p, d)],
             cache := [(p, { time := t1, data := [] })], readCount := 1 }
        p d.length 0 d.length t2 ttl
      = some (List.replicate d.length 0,
          { remote := [(p, d)],
            cache := [(p, { time := t1, data := [] })], readCount := 1 }) ∧
    (cfRead { remote := [(p, d)], cache := [], readCount := 1 }
        p d.length 0 d.length t2 ttl).map Prod.fst = some d := by
  have hfresh : cacheFresh t1 t2 ttl = true := by
    simp [cacheFresh, jsCoalesce, JsVal.truthy, h]
  refine ⟨?_, ?_, ?_⟩
  · rw [cfWrite]
    rw [show getValidContents (cfCreateFile cfInit p) p t1 ttl
        = some ([], { remote := [(p, [])],
                      cache := [(p, { time := t1, data := [] })], readCount := 1 }) from by
      rw [getValidContents]
      simp only [cfCreateFile, cfInit, List.lookup]
      rw [cfFetch]
      simp [insertA, deleteA, List.lookup]]
    simp only
    rw [bufferSet_extend_empty]
    simp [insertA, deleteA, List.lookup]
  · rw [cfRead, getValidContents]
    simp only [List.lookup, beq_self_eq_true]
    rw [hfresh]
    simp [subarray, bufferSet]
  · rw [cfRead, getValidContents]
    simp only [List.lookup]
    rw [cfFetch]
    simp only [List.lookup, beq_self_eq_true]
    have hsub : subarray d 0 d.length = d := by
      simp [subarray]
    simp [hsub, bufferSet_replicate_full]

/-- C1 (witness): the amended theorem instantiated at `"/f"`,
`[1, 2, 3]`, times `5` and `6`, TTL `3600`. -/
theorem c1_amended_write_read_witness :
    cfWrite (cfCreateFile cfInit "/f") "/f" [1, 2, 3] 0 5 3600
        = some { remote := [("/f", [1, 2, 3])],
                 cache := [("/f", { time := 5, data := [] })], readCount := 1 } ∧
    cfRead { remote := [("/f", [1, 2, 3])],
             cache := [("/f", { time := 5, data := [] })], readCount := 1 }
        "/f" 3 0 3 6 3600
      = some ([0, 0, 0],
          { remote := [("/f", [1, 2, 3])],
            cache := [("/f", { time := 5, data := [] })], readCount := 1 }) ∧
    (cfRead { remote := [("/f", [1, 2, 3])], cache := [], readCount := 1 }
        "/f" 3 0 3 6 3600).map Prod.fst = some [1, 2, 3] :=
  c1_amended_write_read "/f" [1, 2, 3] 5 6 3600 (by decide)

/-- C2 (code evaluation at the failing input): remote `"/f" ↦ [7]`,
first read at time `10`, second read at time `3711` — more than the
TTL of `3600` seconds later.  The condition
`cache.time ?? 0 >= performance.now() / 1000 - this.cacheTTL` parses as
`cache.time ?? (0 >= ...)`, and `cache.time` is never nullish, so the
entry is treated as fresh whenever its timestamp is nonzero: the second
read is served from the cache and `_read` has still run only once,
where the claim requires a second fetch. -/
theorem c2_ttl_never_expires :
    ((cfRead { remote := [("/f", [7])], cache := [], readCount := 0 }
          "/f" 1 0 1 10 3600).bind
        (fun r => cfRead r.2 "/f" 1 0 1 3711 3600)).map
          (fun r => (r.1, r.2.readCount))
      = some ([7], 1) := by decide

/-- C3 (counterexample): a `headObject` response whose user metadata
declares size `5` while `ContentLength` is `7` (and whose declared
`mtimeMs` matches `LastModified`) makes `_stat` return the parsed inode
and merely set the warning flag — it does not fail with `EBADMSG` as
the claim requires for a size mismatch. -/
theorem c3_counterexample :
    s3stat (some { mode := 0o644, size := 5, mtimeMs := 1000 })
        (some 7) (some 1000)
      = .ok ({ mode := 0o644, size := 5, mtimeMs := 1000 }, true) := by
  decide

/-- C3 (amended): a declared-`mtimeMs` mismatch against
`LastModified?.getTime()` makes `_stat` fail with `EBADMSG`; a
declared-size mismatch against `ContentLength` alone only logs a
warning (the returned flag) and `_stat` succeeds with the parsed
inode. -/
theorem c3_amended_stat_checks (m : S3Decl) (cl lm : Option Int)
    (hmt : looseNeq m.mtimeMs lm = true)
    (m2 : S3Decl) (cl2 lm2 : Option Int)
    (hmt2 : looseNeq m2.mtimeMs lm2 = false) :
    s3stat (some m) cl lm = .error .badMessage ∧
    s3stat (some m2) cl2 lm2 = .ok (m2, looseNeq m2.size cl2) := by
  constructor
  · simp [s3stat, hmt]
  · simp [s3stat, hmt2]

/-- C3 (witness): the amended theorem at a mismatching-`mtimeMs`
response and a mismatching-size response. -/
theorem c3_amended_stat_checks_witness :
    s3stat (some { mode := 0o644, size := 3, mtimeMs := 1000 })
        (some 3) (some 2000) = .error .badMessage ∧
    s3stat (some { mode := 0o644, size := 5, mtimeMs := 1000 })
        (some 7) (some 1000)
      = .ok ({ mode := 0o644, size := 5, mtimeMs := 1000 },
          looseNeq 5 (some 7)) :=
  c3_amended_stat_checks
    { mode := 0o644, size := 3, mtimeMs := 1000 } (some 3) (some 2000) (by decide)
    { mode := 0o644, size := 5, mtimeMs := 1000 } (some 7) (some 1000) (by decide)

/-- C4 (counterexample): one `createFile("/x/y")` from the freshly
constructed adapter caches the new id under the full path `"/x/y"`
without ever resolving or caching `"/x"` (the create request carries no
parent), so the resulting reachable `pathCache` violates the
ancestor-closure invariant. -/
theorem c4_counterexample :
    ancestorClosedB
        (gdriveCreateFile gdInit (toStr "/x/y") (toStr "id1") 0o644).1.pathCache
      = false := by decide

/-- C4 (amended): the ancestor-closure invariant does hold for every
`pathCache` state reachable from the fresh adapter by the non-mutating
operations `stat` and `readdir` alone, for any remote store whose file
names are representable (nonempty, slash-free, not dot segments) and
for request paths that percent-decoding leaves stable; the mutating
operations break it (`createFile`/`mkdir` cache the full path without
its ancestors, and `clearCaches` deletes a single key). -/
theorem c4_amended_ancestor_closure (files : List DriveFile)
    (ops : List ReadOnlyOp)
    (hsane : SaneRemote files)
    (hstable : ∀ p, ReadOnlyOp.readdirQ p ∈ ops →
       normalizePath (normalizePath p) = normalizePath p) :
    ancestorClosedB (runOps files ops gdInit).pathCache = true :=
  ancestorClosedB_of_PInv _ (runOps_inv files ops gdInit hsane hstable PInv_gdInit)

/-- C4 (witness): the amended theorem on a two-file remote and the
sequence `stat "/a"`, `readdir "/a"`, `stat "/a/b"`. -/
theorem c4_amended_ancestor_closure_witness :
    ancestorClosedB
      (runOps
        [{ id := toStr "idA", name := toStr "a", parentId := toStr "root",
           trashed := false,
           mimeType := toStr "application/vnd.google-apps.folder", size := 0 },
         { id := toStr "idB", name := toStr "b", parentId := toStr "idA",
           trashed := false, mimeType := toStr "text/plain", size := 3 }]
        [ReadOnlyOp.statQ (toStr "/a"), ReadOnlyOp.readdirQ (toStr "/a"),
         ReadOnlyOp.statQ (toStr "/a/b")]
        gdInit).pathCache = true :=
  c4_amended_ancestor_closure _ _
    (by
      intro f hf
      simp only [List.mem_cons, List.not_mem_nil, or_false] at hf
      rcases hf with rfl | rfl
      · exact ⟨by decide, by decide, by decide, by decide⟩
      · exact ⟨by decide, by decide, by decide, by decide⟩)
    (by
      intro p hp
      simp only [List.mem_cons, List.not_mem_nil, or_false] at hp
      rcases hp with hp | hp | hp
      · exact absurd hp (by simp)
      · rw [show p = toStr "/a" from by injection hp]
        decide
      · exact absurd hp (by simp))

theorem listLoop_diverges (cont : String → Page)
    (hcont : ∀ c, (cont c).has_more = true) :
    ∀ (fuel : Nat) (page : Page) (acc : List String),
    page.has_more = true →
    listLoop cont (fuel + 1) page acc
      = (.error ⟨.ioError, some "Infinite loop prevented"⟩, fuel) := by
  intro fuel
  induction fuel with
  | zero =>
    intro page acc hp
    rw [listLoop, if_pos hp]
    rfl
  | succ m ih =>
    intro page acc hp
    rw [listLoop, if_pos hp, if_neg (by simp)]
    dsimp only
    rw [ih (cont page.cursor) (acc ++ pageNames (cont page.cursor))
      (hcont page.cursor)]

/-- C5: `readdir` exhausts the continuation protocol — for a
three-page listing of sizes 2/2/1 it returns all five names in page
order with exactly three remote list calls — and a continuation chain
that never clears `has_more` makes it fail with the
`Infinite loop prevented` `EIO` error at the iteration ceiling instead
of looping (after 100 remote calls). -/
theorem c5_readdir_pagination (a b c d e k1 k2 k3 : String)
    (cont cont2 : String → Page) (first2 : Page)
    (ha : a ≠ "") (hb : b ≠ "") (hc : c ≠ "") (hd : d ≠ "") (he : e ≠ "")
    (h1 : cont k1 = { entries := [some c, some d], has_more := true, cursor := k2 })
    (h2 : cont k2 = { entries := [some e], has_more := false, cursor := k3 })
    (hf2 : first2.has_more = true)
    (hc2 : ∀ x, (cont2 x).has_more = true) :
    dropboxReaddir { entries := [some a, some b], has_more := true, cursor := k1 } cont
      = (.ok [a, b, c, d, e], 3) ∧
    dropboxReaddir first2 cont2
      = (.error ⟨.ioError, some "Infinite loop prevented"⟩, 100) := by
  constructor
  · have hn1 : pageNames { entries := [some a, some b], has_more := true, cursor := k1 }
        = [a, b] := by
      simp [pageNames, ha, hb]
    have hn2 : pageNames { entries := [some c, some d], has_more := true, cursor := k2 }
        = [c, d] := by
      simp [pageNames, hc, hd]
    have hn3 : pageNames { entries := [some e], has_more := false, cursor := k3 }
        = [e] := by
      simp [pageNames, he]
    rw [dropboxReaddir, hn1]
    rw [show (100 : Nat) = 98 + 1 + 1 from rfl]
    rw [listLoop, if_pos rfl, if_neg (by simp)]
    dsimp only
    rw [h1, hn2]
    rw [show (98 : Nat) + 1 = 97 + 1 + 1 from rfl]
    rw [listLoop, if_pos rfl, if_neg (by simp)]
    dsimp only
    rw [h2, hn3]
    rw [listLoop, if_neg (by simp)]
    rfl
  · rw [dropboxReaddir]
    rw [show (100 : Nat) = 99 + 1 from rfl]
    rw [listLoop_diverges cont2 hc2 99 first2 (pageNames first2) hf2]

/-- C5 (witness): the pagination theorem at concrete names, cursors,
and a constant always-more continuation. -/
theorem c5_readdir_pagination_witness :
    dropboxReaddir { entries := [some "a", some "b"], has_more := true, cursor := "k1" }
        (fun x => if x == "k1"
          then { entries := [some "c", some "d"], has_more := true, cursor := "k2" }
          else { entries := [some "e"], has_more := false, cursor := "k3" })
      = (.ok ["a", "b", "c", "d", "e"], 3) ∧
    dropboxReaddir { entries := [], has_more := true, cursor := "z" }
        (fun _ => { entries := [], has_more := true, cursor := "z" })
      = (.error ⟨.ioError, some "Infinite loop prevented"⟩, 100) :=
  c5_readdir_pagination "a" "b" "c" "d" "e" "k1" "k2" "k3"
    (fun x => if x == "k1"
      then { entries := [some "c", some "d"], has_more := true, cursor := "k2" }
      else { entries := [some "e"], has_more := false, cursor := "k3" })
    (fun _ => { entries := [], has_more := true, cursor := "z" })
    { entries := [], has_more := true, cursor := "z" }
    (by decide) (by decide) (by decide) (by decide) (by decide)
    (by decide) (by decide) rfl (fun _ => rfl)

theorem convertTagged_default (tag : String) (msg : Option String)
    (h : tag ∉ recognizedTags) :
    convertTagged (.leaf tag) msg
      = (.invalidArgument, some ("Unknown error tag: " ++ tag)) := by
  have t1 : ¬(tag = "malformed_path" ∨ tag = "disallowed_name" ∨
      tag = "cant_move_folder_into_itself" ∨
      tag = "duplicated_or_nested_paths") := by
    rintro (rfl | rfl | rfl | rfl) <;> exact h (by decide)
  have t2 : ¬tag = "not_found" := by rintro rfl; exact h (by decide)
  have t3 : ¬tag = "not_file" := by rintro rfl; exact h (by decide)
  have t4 : ¬tag = "not_folder" := by rintro rfl; exact h (by decide)
  have t5 : ¬(tag = "restricted_content" ∨ tag = "conflict" ∨
      tag = "no_write_permission" ∨ tag = "team_folder" ∨
      tag = "cant_copy_shared_folder" ∨ tag = "cant_nest_shared_folder") := by
    rintro (rfl | rfl | rfl | rfl | rfl | rfl) <;> exact h (by decide)
  have t6 : ¬(tag = "insufficient_space" ∨ tag = "insufficient_quota" ∨
      tag = "too_many_files") := by
    rintro (rfl | rfl | rfl) <;> exact h (by decide)
  have t7 : ¬tag = "too_many_write_operations" := by
    rintro rfl; exact h (by decide)
  have t8 : ¬tag = "locked" := by rintro rfl; exact h (by decide)
  have t9 : ¬tag = "content_hash_mismatch" := by rintro rfl; exact h (by decide)
  have t10 : ¬tag = "unsupported_content_type" := by
    rintro rfl; exact h (by decide)
  have t11 : ¬tag = "payload_too_large" := by rintro rfl; exact h (by decide)
  have t12 : ¬(tag = "cant_transfer_ownership" ∨ tag = "internal_error" ∨
      tag = "cant_move_shared_folder" ∨ tag = "cant_move_into_vault" ∨
      tag = "cant_move_into_family" ∨ tag = "operation_suppressed" ∨
      tag = "template_error" ∨ tag = "properties_error" ∨ tag = "other") := by
    rintro (rfl | rfl | rfl | rfl | rfl | rfl | rfl | rfl | rfl) <;>
      exact h (by decide)
  rw [convertTagged, if_neg t1, if_neg t2, if_neg t3, if_neg t4, if_neg t5,
    if_neg t6, if_neg t7, if_neg t8, if_neg t9, if_neg t10, if_neg t11,
    if_neg t12]

/-- C6: a three-level nested Dropbox error — response envelope around a
`DB.Error` envelope around `path_lookup` around the `not_found` leaf —
converts to `ENOENT` (NotFound), whatever the envelope's messages; and
any leaf whose `.tag` is not one of the recognized tags falls to the
`default` arm, producing `EINVAL` (InvalidArgument) with an
`Unknown error tag` message — the conversion is a total function, so it
never itself fails. -/
theorem c6_convert_error (status : Nat) (um es : Option String)
    (tag : String) (msg : Option String) (h : tag ∉ recognizedTags) :
    convertError (.response status (.envelope um es (.pathLookup (.leaf "not_found"))))
      = (.notFound, none) ∧
    convertError (.plain (.envelope um es (.pathLookup (.leaf "not_found"))))
      = (.notFound, none) ∧
    convertTagged (.leaf tag) msg
      = (.invalidArgument, some ("Unknown error tag: " ++ tag)) := by
  refine ⟨rfl, rfl, convertTagged_default tag msg h⟩

/-- C6 (witness): the conversion theorem at status `409`, concrete
envelope messages, and the unrecognized tag `"bogus"`. -/
theorem c6_convert_error_witness :
    convertError (.response 409
        (.envelope (some "u") (some "s") (.pathLookup (.leaf "not_found"))))
      = (.notFound, none) ∧
    convertError (.plain
        (.envelope (some "u") (some "s") (.pathLookup (.leaf "not_found"))))
      = (.notFound, none) ∧
    convertTagged (.leaf "bogus") none
      = (.invalidArgument, some ("Unknown error tag: " ++ "bogus")) :=
  c6_convert_error 409 (some "u") (some "s") "bogus" none (by decide)

/-- C7: `stat("/")` short-circuits in every backend.  The generic
`CloudFS.stat` returns a synthetic `S_IFDIR | 0o755` inode with no
conversion, identically for any two primitive outcomes (so no backend
primitive is consulted); `GoogleDriveFS.stat` on a state with no cached
root stats returns the synthetic `S_IFDIR | 0o777` record with zero
remote calls, for every remote store.  Both modes carry the directory
bit. -/
theorem c7_root_stat (cv : ε → Errex) (pr pr2 : PrimResults ε)
    (files : List DriveFile) (st : GDState)
    (hsc : List.lookup (toStr "/") st.statsCache = none) :
    statOp cv pr "/" = (.ok (S_IFDIR ||| 0o755), 0) ∧
    statOp cv pr "/" = statOp cv pr2 "/" ∧
    (S_IFDIR ||| 0o755) &&& S_IFDIR ≠ 0 ∧
    gdriveStat files st (toStr "/")
      = (.ok { mode := 0o777 ||| S_IFDIR, size := 0 },
         { st with statsCache :=
             (insertA st.statsCache (toStr "/") ⟨0o777 ||| S_IFDIR, 0⟩) }, 0) ∧
    (0o777 ||| S_IFDIR) &&& S_IFDIR ≠ 0 := by
  have hn : normalizePath (toStr "/") = toStr "/" := by decide
  refine ⟨by simp [statOp], by simp [statOp], by decide, ?_, by decide⟩
  simp only [gdriveStat, hn, hsc]
  simp

/-- C7 (witness): the root-stat theorem at the unit backend and the
fresh Drive adapter state. -/
theorem c7_root_stat_witness :
    statOp (fun _ : Unit => Errex.mk .ioError none)
        { moveP := .ok (), statP := .ok 0, createP := .ok (), deleteP := .ok (),
          readPrim := .ok [], writePrim := .ok (), touchP := none,
          readdirC := .ok [] } "/" = (.ok (S_IFDIR ||| 0o755), 0) ∧
    statOp (fun _ : Unit => Errex.mk .ioError none)
        { moveP := .ok (), statP := .ok 0, createP := .ok (), deleteP := .ok (),
          readPrim := .ok [], writePrim := .ok (), touchP := none,
          readdirC := .ok [] } "/"
      = statOp (fun _ : Unit => Errex.mk .ioError none)
        { moveP := .error (.raw ()), statP := .error (.raw ()),
          createP := .error (.raw ()), deleteP := .error (.raw ()),
          readPrim := .error (.raw ()), writePrim := .error (.raw ()),
          touchP := some (.error (.raw ())), readdirC := .error (.raw ()) } "/" ∧
    (S_IFDIR ||| 0o755) &&& S_IFDIR ≠ 0 ∧
    gdriveStat [] gdInit (toStr "/")
      = (.ok { mode := 0o777 ||| S_IFDIR, size := 0 },
         { gdInit with statsCache :=
             (insertA gdInit.statsCache (toStr "/") ⟨0o777 ||| S_IFDIR, 0⟩) }, 0) ∧
    (0o777 ||| S_IFDIR) &&& S_IFDIR ≠ 0 :=
  c7_root_stat (fun _ : Unit => Errex.mk .ioError none) _ _ [] gdInit rfl

/-- C9: `checkStatus` returns normally for every response status and
every expected set (its only statement is an early return), so each S3
primitive completes without error whenever the underlying client call
itself resolves — for arbitrary, even unexpected, HTTP status codes:
`_delete` and `_create` off the root, `_read` with a body, `_touch`,
`_write` after a successful stat, and `_move` (copy, then unlink). -/
theorem c9_checkStatus_permissive (md : Option Int) (expected : List Int)
    (path from_ : String) (hp : path ≠ "/") (hf : from_ ≠ "/")
    (delSt putSt getSt copySt wrSt : Option Int) (body : List Nat)
    (m : S3Decl) (cl lm : Option Int)
    (hstat : looseNeq m.mtimeMs lm = false)
    (hnotdir : m.mode &&& S_IFDIR = 0) :
    checkStatus md expected = .ok () ∧
    s3Delete path delSt = .ok () ∧
    s3Create path putSt = .ok () ∧
    s3ReadPrim getSt (some body) = .ok body ∧
    s3Touch getSt (some body) putSt = .ok () ∧
    s3Write from_ (some m) cl lm wrSt = .ok () ∧
    s3Move from_ copySt (some m) cl lm delSt = .ok () := by
  have hcs : ∀ (x : Option Int) (e : List Int), checkStatus x e = .ok () := by
    intro x e
    simp [checkStatus]
  have hpb : ¬((path == "/") = true) := by simp [hp]
  have hfb : ¬((from_ == "/") = true) := by simp [hf]
  have hdel : s3Delete path delSt = .ok () := by
    rw [s3Delete, if_neg hpb, hcs]
    rfl
  have hstat2 : s3CloudStat from_ (some m) cl lm = .ok m := by
    rw [s3CloudStat, if_neg hfb]
    simp [s3stat, hstat]
    rfl
  have hdelf : s3Delete from_ delSt = .ok () := by
    rw [s3Delete, if_neg hfb, hcs]
    rfl
  have hunlink : s3Unlink from_ (some m) cl lm delSt = .ok () := by
    rw [s3Unlink, hstat2]
    dsimp only
    rw [if_neg (by simp [hnotdir])]
    exact hdelf
  refine ⟨hcs md expected, hdel, ?_, ?_, ?_, ?_, ?_⟩
  · rw [s3Create, if_neg hpb, hcs]
    rfl
  · rw [s3ReadPrim, hcs]
    rfl
  · rw [s3Touch, s3ReadPrim, hcs, hcs]
    rfl
  · rw [s3Write, hstat2, hcs]
    rfl
  · rw [s3Move, hcs]
    exact hunlink

/-- C9 (witness): the permissive-status theorem with unexpected status
codes everywhere (`999` status against expected sets like `[204]`). -/
theorem c9_checkStatus_permissive_witness :
    checkStatus (some 999) [204] = .ok () ∧
    s3Delete "/a" (some 999) = .ok () ∧
    s3Create "/a" (some 999) = .ok () ∧
    s3ReadPrim (some 999) (some [1]) = .ok [1] ∧
    s3Touch (some 999) (some [1]) (some 999) = .ok () ∧
    s3Write "/b" (some { mode := 0o644, size := 1, mtimeMs := 9 })
        (some 1) (some 9) (some 999) = .ok () ∧
    s3Move "/b" (some 999) (some { mode := 0o644, size := 1, mtimeMs := 9 })
        (some 1) (some 9) (some 999) = .ok () :=
  c9_checkStatus_permissive (some 999) [204] "/a" "/b" (by decide) (by decide)
    (some 999) (some 999) (some 999) (some 999) (some 999) [1]
    { mode := 0o644, size := 1, mtimeMs := 9 } (some 1) (some 9)
    (by decide) (by decide)

theorem splitChar_mkPath (L : List Str) (hL : GoodSegs L) (hne : L ≠ []) :
    splitChar '/' (mkPath L) = [] :: L := by
  rw [mkPath, splitChar, if_pos rfl,
    splitChar_joinChar '/' L (fun l hl => (hL l hl).2) hne]

theorem mkPath_dropLast_ne (pre : List Str) (last : Str)
    (_hpre : pre ≠ []) (hgood : GoodSegs (pre ++ [last])) :
    mkPath pre ≠ mkPath (pre ++ [last]) := by
  intro heq
  have hgoodpre : GoodSegs pre := fun l hl => hgood l (List.mem_append_left _ hl)
  have h1 : segsOf (mkPath pre) = pre := segsOf_mkPath pre hgoodpre
  have h2 : segsOf (mkPath (pre ++ [last])) = pre ++ [last] :=
    segsOf_mkPath _ hgood
  rw [heq, h2] at h1
  have : (pre ++ [last]).length = pre.length := by rw [h1]
  simp at this

/-- C10: for every canonical path with at least two segments,
`GoogleDriveFS.createFile` and `mkdir` build their `files.create`
request from the path's final segment alone, with no parent identifier
(`parents` is absent), and cache the remotely assigned id in
`pathCache` under the full path (the subsequent
`clearCaches(dirname(path))` removes only the parent's entries). -/
theorem c10_create_requests (pre : List Str) (last newId : Str) (mode : Nat)
    (st : GDState) (hpre : pre ≠ []) (hgood : GoodSegs (pre ++ [last])) :
    gdriveCreateRequest (mkPath (pre ++ [last]))
      = { name := last, parents := none } ∧
    gdriveMkdirRequest (mkPath (pre ++ [last]))
      = { name := last, parents := none } ∧
    List.lookup (mkPath (pre ++ [last]))
        (gdriveCreateFile st (mkPath (pre ++ [last])) newId mode).1.pathCache
      = some newId ∧
    List.lookup (mkPath (pre ++ [last]))
        (gdriveMkdir st (mkPath (pre ++ [last])) newId).1.pathCache
      = some newId := by
  have hne : pre ++ [last] ≠ [] := by simp
  have hsplit : splitChar '/' (mkPath (pre ++ [last])) = [] :: (pre ++ [last]) :=
    splitChar_mkPath _ hgood hne
  have hsegs : segsOf (mkPath (pre ++ [last])) = pre ++ [last] :=
    segsOf_mkPath _ hgood
  have hdir : dirname (mkPath (pre ++ [last])) = mkPath pre := by
    rw [dirname, hsegs, List.dropLast_concat]
  have hdne : dirname (mkPath (pre ++ [last])) ≠ mkPath (pre ++ [last]) := by
    rw [hdir]
    exact mkPath_dropLast_ne pre last hpre hgood
  refine ⟨?_, ?_, ?_, ?_⟩
  · rw [gdriveCreateRequest, hsplit]
    rw [show ([] : Str) :: (pre ++ [last]) = (([] : Str) :: pre) ++ [last] from rfl]
    rw [List.getLast?_concat]
    rfl
  · rw [gdriveMkdirRequest, getNameFromPath, hsegs, List.getLast?_concat]
    rfl
  · show List.lookup (mkPath (pre ++ [last]))
        (deleteA (insertA st.pathCache (mkPath (pre ++ [last])) newId)
          (dirname (mkPath (pre ++ [last])))) = some newId
    rw [lookup_deleteA_ne _ _ _ (fun h => hdne h.symm),
      lookup_insertA_self]
  · show List.lookup (mkPath (pre ++ [last]))
        (deleteA (insertA st.pathCache (mkPath (pre ++ [last])) newId)
          (dirname (mkPath (pre ++ [last])))) = some newId
    rw [lookup_deleteA_ne _ _ _ (fun h => hdne h.symm),
      lookup_insertA_self]

/-- C10 (witness): the request-shape theorem at the two-segment path
`"/x/y"`. -/
theorem c10_create_requests_witness :
    gdriveCreateRequest (mkPath [toStr "x", toStr "y"])
      = { name := toStr "y", parents := none } ∧
    gdriveMkdirRequest (mkPath [toStr "x", toStr "y"])
      = { name := toStr "y", parents := none } ∧
    List.lookup (mkPath [toStr "x", toStr "y"])
        (gdriveCreateFile gdInit (mkPath [toStr "x", toStr "y"])
          (toStr "id1") 0o644).1.pathCache
      = some (toStr "id1") ∧
    List.lookup (mkPath [toStr "x", toStr "y"])
        (gdriveMkdir gdInit (mkPath [toStr "x", toStr "y"])
          (toStr "id1")).1.pathCache
      = some (toStr "id1") :=
  c10_create_requests [toStr "x"] (toStr "y") (toStr "id1") 0o644 gdInit
    (by decide)
    (by
      intro l hl
      simp only [List.mem_append, List.mem_singleton, List.mem_cons,
        List.not_mem_nil, or_false] at hl
      rcases hl with rfl | rfl
      · exact ⟨by decide, by decide⟩
      · exact ⟨by decide, by decide⟩)

theorem convertThrown_normalized (cv : ε → Errex) (ex : Errex) :
    convertThrown cv (Thrown.normalized (ε := ε) ex) = ex := rfl

theorem catchP_count_le_one (cv : ε → Errex) (x : Except (Thrown ε) α) :
    (catchP cv x).2 ≤ 1 := by
  cases x with
  | ok a => simp [catchP]
  | error t => cases t <;> simp [catchP, convCount]

theorem catchP_ok_count (cv : ε → Errex) (x : Except (Thrown ε) α) (a : α)
    (h : (catchP cv x).1 = .ok a) : (catchP cv x).2 = 0 := by
  cases x with
  | ok b => simp [catchP]
  | error t => simp [catchP] at h

theorem statOp_count_le_one (cv : ε → Errex) (pr : PrimResults ε) (path : String) :
    (statOp cv pr path).2 ≤ 1 := by
  rw [statOp]
  by_cases hp : (path == "/") = true
  · rw [if_pos hp]
    simp
  · rw [if_neg hp]
    exact catchP_count_le_one cv pr.statP

theorem statOp_ok_count (cv : ε → Errex) (pr : PrimResults ε) (path : String)
    (m : Nat) (h : (statOp cv pr path).1 = .ok m) : (statOp cv pr path).2 = 0 := by
  rw [statOp] at h ⊢
  by_cases hp : (path == "/") = true
  · rw [if_pos hp]
  · rw [if_neg hp] at h ⊢
    exact catchP_ok_count cv pr.statP m h

theorem renameOp_count_le_one (cv : ε → Errex) (pr : PrimResults ε)
    (oldPath newPath : String) : (renameOp cv pr oldPath newPath).2 ≤ 1 := by
  rw [renameOp]
  by_cases hp : (oldPath == newPath) = true
  · rw [if_pos hp]
    simp
  · rw [if_neg hp]
    exact catchP_count_le_one cv pr.moveP

theorem createFileOp_count_le_one (cv : ε → Errex) (pr : PrimResults ε)
    (mode : Nat) : (createFileOp cv pr mode).2 ≤ 1 := by
  rw [createFileOp]
  rcases hc : catchP cv pr.createP with ⟨r, n⟩
  have hn : n ≤ 1 := by
    have := catchP_count_le_one cv pr.createP
    rw [hc] at this
    exact this
  cases r <;> exact hn

theorem unlinkOp_count_le_one (cv : ε → Errex) (pr : PrimResults ε)
    (path : String) : (unlinkOp cv pr path).2 ≤ 1 := by
  rw [unlinkOp]
  rcases hst : statOp cv pr path with ⟨r, n⟩
  cases r with
  | error ex =>
    have hn : n ≤ 1 := by
      have := statOp_count_le_one cv pr path
      rw [hst] at this
      exact this
    simp only [reCatch]
    exact hn
  | ok m =>
    have hn0 : n = 0 := by
      have := statOp_ok_count cv pr path m (by rw [hst])
      rw [hst] at this
      exact this
    subst hn0
    simp only [reCatch]
    by_cases hdir : m &&& S_IFDIR ≠ 0
    · rw [if_pos hdir]
      simp
    · rw [if_neg hdir]
      rcases hd : catchP cv pr.deleteP with ⟨rd, nd⟩
      have hnd : nd ≤ 1 := by
        have := catchP_count_le_one cv pr.deleteP
        rw [hd] at this
        exact this
      cases rd <;> simpa using hnd

theorem rmdirOp_count_le_one (cv : ε → Errex) (pr : PrimResults ε) :
    (rmdirOp cv pr).2 ≤ 1 := by
  rw [rmdirOp]
  rcases hr : catchP cv pr.readdirC with ⟨r, n⟩
  cases r with
  | error ex =>
    have hn : n ≤ 1 := by
      have := catchP_count_le_one cv pr.readdirC
      rw [hr] at this
      exact this
    exact hn
  | ok paths =>
    have hn0 : n = 0 := by
      have := catchP_ok_count cv pr.readdirC paths (by rw [hr])
      rw [hr] at this
      exact this
    subst hn0
    dsimp only
    by_cases hne : paths.length > 0
    · rw [if_pos hne]
      simp
    · rw [if_neg hne]
      rcases hd : catchP cv pr.deleteP with ⟨rd, nd⟩
      have hnd : nd ≤ 1 := by
        have := catchP_count_le_one cv pr.deleteP
        rw [hd] at this
        exact this
      cases rd <;> simpa using hnd

theorem mkdirOp_count_le_one (cv : ε → Errex) (pr : PrimResults ε)
    (parent : String) (mode : Nat) : (mkdirOp cv pr parent mode).2 ≤ 1 := by
  rw [mkdirOp]
  rcases hst : statOp cv pr parent with ⟨r, n⟩
  cases r with
  | error ex =>
    have hn : n ≤ 1 := by
      have := statOp_count_le_one cv pr parent
      rw [hst] at this
      exact this
    simp only [reCatch]
    exact hn
  | ok m =>
    have hn0 : n = 0 := by
      have := statOp_ok_count cv pr parent m (by rw [hst])
      rw [hst] at this
      exact this
    subst hn0
    simp only [reCatch]
    by_cases hdir : m &&& S_IFDIR = 0
    · rw [if_pos hdir]
      simp
    · rw [if_neg hdir]
      rcases hc : catchP cv pr.createP with ⟨rc, nc⟩
      have hnc : nc ≤ 1 := by
        have := catchP_count_le_one cv pr.createP
        rw [hc] at this
        exact this
      cases rc <;> simpa using hnc

theorem touchOp_count_le_one (cv : ε → Errex) (pr : PrimResults ε) :
    (touchOp cv pr).2 ≤ 1 := by
  rw [touchOp]
  cases pr.touchP with
  | none => simp
  | some x =>
    dsimp only
    rcases ht : catchP cv x with ⟨r, n⟩
    have hn : n ≤ 1 := by
      have := catchP_count_le_one cv x
      rw [ht] at this
      exact this
    cases r <;> simpa using hn

theorem readOp_count_le_one (cv : ε → Errex) (pr : PrimResults ε)
    (cached : Option (List Nat)) (bufLen o stop : Nat) :
    (readOp cv pr cached bufLen o stop).2 ≤ 1 := by
  rw [readOp]
  cases cached with
  | some d => simp [gvcOp]
  | none =>
    simp only [gvcOp]
    rcases hr : catchP cv pr.readPrim with ⟨r, n⟩
    have hn : n ≤ 1 := by
      have := catchP_count_le_one cv pr.readPrim
      rw [hr] at this
      exact this
    cases r <;> exact hn

theorem writeOp_count_le_one (cv : ε → Errex) (pr : PrimResults ε)
    (cached : Option (List Nat)) (d : List Nat) (off : Nat) :
    (writeOp cv pr cached d off).2 ≤ 1 := by
  rw [writeOp]
  cases cached with
  | some dd =>
    simp only [gvcOp]
    rcases hw : catchP cv pr.writePrim with ⟨rw', nw⟩
    have hnw : nw ≤ 1 := by
      have := catchP_count_le_one cv pr.writePrim
      rw [hw] at this
      exact this
    cases rw' <;> simpa using hnw
  | none =>
    simp only [gvcOp]
    rcases hr : catchP cv pr.readPrim with ⟨r, n⟩
    cases r with
    | error ex =>
      have hn : n ≤ 1 := by
        have := catchP_count_le_one cv pr.readPrim
        rw [hr] at this
        exact this
      exact hn
    | ok dd =>
      have hn0 : n = 0 := by
        have := catchP_ok_count cv pr.readPrim dd (by rw [hr])
        rw [hr] at this
        exact this
      subst hn0
      rcases hw : catchP cv pr.writePrim with ⟨rw', nw⟩
      have hnw : nw ≤ 1 := by
        have := catchP_count_le_one cv pr.writePrim
        rw [hw] at this
        exact this
      cases rw' <;> simpa using hnw

/-- C8: error-conversion discipline of the composite `CloudFS`
operations.  `_convertAndThrow` rethrows an already-normalized error
unchanged (zero `convertError` invocations); every composite operation
performs at most one `convertError` invocation per call; and when the
first failing primitive (or nested composite) rejects with `t`, the
operation surfaces exactly `convertThrown cv t` — `cv` applied once if
`t` is raw, `t`'s own exception untouched if it is already
normalized. -/
theorem c8_conversion_once (cv : ε → Errex) (pr : PrimResults ε)
    (oldPath newPath path parent : String) (mode : Nat)
    (cached : Option (List Nat)) (d : List Nat)
    (off bufLen o stop : Nat) (t : Thrown ε) (ex : Errex)
    (hrn : oldPath ≠ newPath) (hp : path ≠ "/") (hpar : parent ≠ "/") :
    (convertThrown cv (Thrown.normalized (ε := ε) ex) = ex ∧
     convCount (Thrown.normalized (ε := ε) ex) = 0) ∧
    ((renameOp cv pr oldPath newPath).2 ≤ 1 ∧
     (statOp cv pr path).2 ≤ 1 ∧
     (createFileOp cv pr mode).2 ≤ 1 ∧
     (unlinkOp cv pr path).2 ≤ 1 ∧
     (rmdirOp cv pr).2 ≤ 1 ∧
     (mkdirOp cv pr parent mode).2 ≤ 1 ∧
     (touchOp cv pr).2 ≤ 1 ∧
     (readOp cv pr cached bufLen o stop).2 ≤ 1 ∧
     (writeOp cv pr cached d off).2 ≤ 1) ∧
    (pr.moveP = .error t →
       renameOp cv pr oldPath newPath
         = (.error (convertThrown cv t), convCount t)) ∧
    (pr.statP = .error t →
       statOp cv pr path = (.error (convertThrown cv t), convCount t) ∧
       unlinkOp cv pr path = (.error (convertThrown cv t), convCount t) ∧
       mkdirOp cv pr parent mode
         = (.error (convertThrown cv t), convCount t)) ∧
    (pr.createP = .error t →
       createFileOp cv pr mode = (.error (convertThrown cv t), convCount t)) ∧
    (pr.readdirC = .error t →
       rmdirOp cv pr = (.error (convertThrown cv t), convCount t)) ∧
    (pr.touchP = some (.error t) →
       touchOp cv pr = (.error (convertThrown cv t), convCount t)) ∧
    (pr.readPrim = .error t →
       readOp cv pr none bufLen o stop
         = (.error (convertThrown cv t), convCount t) ∧
       writeOp cv pr none d off
         = (.error (convertThrown cv t), convCount t)) := by
  have hpb : ¬((path == "/") = true) := by simp [hp]
  have hparb : ¬((parent == "/") = true) := by simp [hpar]
  have hrnb : ¬((oldPath == newPath) = true) := by simp [hrn]
  refine ⟨⟨rfl, rfl⟩,
    ⟨renameOp_count_le_one cv pr oldPath newPath,
     statOp_count_le_one cv pr path,
     createFileOp_count_le_one cv pr mode,
     unlinkOp_count_le_one cv pr path,
     rmdirOp_count_le_one cv pr,
     mkdirOp_count_le_one cv pr parent mode,
     touchOp_count_le_one cv pr,
     readOp_count_le_one cv pr cached bufLen o stop,
     writeOp_count_le_one cv pr cached d off⟩,
    ?_, ?_, ?_, ?_, ?_, ?_⟩
  · intro hm
    rw [renameOp, if_neg hrnb, hm]
    simp [catchP]
  · intro hst
    have hstEq : statOp cv pr path = (.error (convertThrown cv t), convCount t) := by
      rw [statOp, if_neg hpb, hst]
      simp [catchP]
    have hstEqPar : statOp cv pr parent
        = (.error (convertThrown cv t), convCount t) := by
      rw [statOp, if_neg hparb, hst]
      simp [catchP]
    refine ⟨hstEq, ?_, ?_⟩
    · rw [unlinkOp, hstEq]
      simp [reCatch, convCount, convertThrown]
    · rw [mkdirOp, hstEqPar]
      simp [reCatch, convCount, convertThrown]
  · intro hc
    rw [createFileOp, hc]
    simp [catchP]
  · intro hr
    rw [rmdirOp, hr]
    simp [catchP]
  · intro ht
    rw [touchOp, ht]
    simp [catchP]
  · intro hrd
    constructor
    · rw [readOp]
      simp only [gvcOp]
      rw [hrd]
      simp [catchP]
    · rw [writeOp]
      simp only [gvcOp]
      rw [hrd]
      simp [catchP]

/-- C8 (witness): the discipline theorem applied at the unit backend
with `_stat` rejecting an already-normalized `ENOENT`: `unlink`
surfaces that exact exception with zero `convertError` invocations. -/
theorem c8_conversion_once_witness :
    unlinkOp (fun _ : Unit => Errex.mk .remoteIoError none)
        { moveP := .ok (), statP := .error (.normalized ⟨.notFound, none⟩),
          createP := .ok (), deleteP := .ok (), readPrim := .ok [],
          writePrim := .ok (), touchP := none, readdirC := .ok [] } "/x"
      = (.error ⟨.notFound, none⟩, 0) :=
  ((c8_conversion_once (fun _ : Unit => Errex.mk .remoteIoError none)
      { moveP := .ok (), statP := .error (.normalized ⟨.notFound, none⟩),
        createP := .ok (), deleteP := .ok (), readPrim := .ok [],
        writePrim := .ok (), touchP := none, readdirC := .ok [] }
      "/a" "/b" "/x" "/p" 0 none [] 0 0 0 0
      (.normalized ⟨.notFound, none⟩) ⟨.notFound, none⟩
      (by decide) (by decide) (by decide)).2.2.2.1 rfl).2.1
